import Mathlib

/-!
Verification of the route-generation core of `type-safe-router-gen`.

The development shallowly embeds the pipeline of the repository
(directory walker, convention rewriter, parameter extractor, route
table builder, code emitter) as executable Lean functions over
`List Char` strings, and proves or refutes the specification claims
about them.  JavaScript strings are modelled as `List Char`; the
regular-expression operations of the source are modelled by
equivalent deterministic character scanners, documented at each
definition.
-/

set_option maxRecDepth 8192
set_option linter.unusedVariables false

namespace RouterGen

/-- Strings of the modelled JavaScript program, as lists of characters. -/
abbrev Str := List Char

/-- Characters matched by the regex class `[a-zA-Z0-9_]` (JavaScript `\w`). -/
def isWordChar (c : Char) : Bool :=
  (('a' ≤ c && c ≤ 'z') || ('A' ≤ c && c ≤ 'Z') || ('0' ≤ c && c ≤ '9') || c = '_')

/-- Model of JavaScript `String.prototype.replace` with a plain-string search
pattern: replace the first occurrence of `pat` by `r`, or return the string
unchanged when `pat` does not occur.  (`pat` is assumed nonempty, as are all
search strings of the source.) -/
def replaceFirst (pat r : Str) : Str → Str
  | [] => []
  | c :: s =>
    if pat.isPrefixOf (c :: s) then r ++ (c :: s).drop pat.length
    else c :: replaceFirst pat r s

/-- Parameter descriptor extracted from a canonical route path, mirroring the
element type of the `params` array of `DiscoveredRouteEntry` in `core.ts`. -/
structure ParamSpec where
  name : Str
  type : Str
  optional : Bool
  catchAll : Bool
deriving DecidableEq, Repr

/-- Scanner equivalent of the global regex match `/:([a-zA-Z0-9_]+)\*?/g` used
by `generateRoutes` in `core.ts`: at each `:` followed by at least one word
character, capture the maximal word-character run and an optional trailing
`*`.  The regex engine continues after the end of a match; this scanner
instead continues right after the `:`, which yields the same match list
because the interior of a match (word characters and `*`) contains no `:`
and therefore cannot start another match. -/
def scanMarkers : Str → List (Str × Bool)
  | [] => []
  | c :: s =>
    if c = ':' then
      let nm := s.takeWhile isWordChar
      if nm = [] then scanMarkers s
      else
        match s.drop nm.length with
        | '*' :: _ => (nm, true) :: scanMarkers s
        | _ => (nm, false) :: scanMarkers s
    else scanMarkers s

/-- Translation of one scanned marker into the `ParamSpec` pushed by
`generateRoutes` in `core.ts`. -/
def paramOfMarker (m : Str × Bool) : ParamSpec :=
  { name := m.1
    type := if m.2 then "string[]".data else "string".data
    optional := m.2
    catchAll := m.2 }

/-- Parameter extraction of `generateRoutes` in `core.ts`: each marker
becomes one `ParamSpec`; a trailing `*` marks a catch-all, typed `string[]`
and optional, every other marker is a required scalar typed `string`. -/
def extractParams (routePath : Str) : List ParamSpec :=
  (scanMarkers routePath).map paramOfMarker

/-! Canonical route paths written as alternations of literal text and
normalized dynamic markers.  This shape describes exactly the paths the
claims about the extractor and the emitter quantify over; `renderPath`
turns it back into the flat string the code actually manipulates. -/

/-- One piece of a canonical route path: literal text, a scalar marker
`:name`, or a catch-all marker `:name*`. -/
inductive Seg where
  | lit : Str → Seg
  | scalar : Str → Seg
  | catchAll : Str → Seg
deriving DecidableEq, Repr

/-- Flat string denoted by one segment. -/
def renderSeg : Seg → Str
  | Seg.lit l => l
  | Seg.scalar n => ':' :: n
  | Seg.catchAll n => ':' :: (n ++ ['*'])

/-- Flat route-path string denoted by a list of segments. -/
def renderPath (segs : List Seg) : Str :=
  (segs.map renderSeg).flatten

/-- Well-formed marker name: nonempty and made of word characters, as any
name produced by the convention rewriter from a real file name is. -/
def okName (n : Str) : Bool :=
  !n.isEmpty && n.all isWordChar

/-- Whether the rendering of `rest` cannot extend a preceding scalar marker:
its first character (if any) is neither a word character nor `*`. -/
def headBlocks : List Seg → Bool
  | [] => true
  | Seg.lit l :: _ =>
    match l with
    | [] => false
    | c :: _ => !isWordChar c && c ≠ '*'
  | Seg.scalar _ :: _ => true
  | Seg.catchAll _ :: _ => true

/-- Well-formedness of a segment list: literal text is nonempty and free of
`:` (so markers are exactly where the segments say they are), marker names
are word-character runs, and a scalar marker is not followed by text that
would extend it.  Every canonical path derived from a conventional file
name satisfies this. -/
def wfSegs : List Seg → Bool
  | [] => true
  | Seg.lit l :: rest => !l.isEmpty && l.all (· ≠ ':') && wfSegs rest
  | Seg.scalar n :: rest => okName n && headBlocks rest && wfSegs rest
  | Seg.catchAll n :: rest => okName n && wfSegs rest

/-- Markers listed by a segment list, in order. -/
def segMarkers : List Seg → List (Str × Bool)
  | [] => []
  | Seg.lit _ :: rest => segMarkers rest
  | Seg.scalar n :: rest => (n, false) :: segMarkers rest
  | Seg.catchAll n :: rest => (n, true) :: segMarkers rest

/-- ParamSpecs a segment list should give rise to: one per marker, in
left-to-right order. -/
def segParams (segs : List Seg) : List ParamSpec :=
  (segMarkers segs).map paramOfMarker

lemma scanMarkers_append_no_colon (l s : Str) (h : ∀ c ∈ l, c ≠ ':') :
    scanMarkers (l ++ s) = scanMarkers s := by
  induction l with
  | nil => rfl
  | cons c l ih =>
    have hc : c ≠ ':' := h c (by simp)
    rw [List.cons_append]
    simp only [scanMarkers, if_neg hc]
    exact ih fun c hc => h c (by simp [hc])

lemma takeWhile_append_word (n s : Str) (hn : ∀ c ∈ n, isWordChar c = true)
    (hs : ∀ c, s.head? = some c → isWordChar c = false) :
    (n ++ s).takeWhile isWordChar = n := by
  induction n with
  | nil =>
    cases s with
    | nil => rfl
    | cons c t => simp [List.takeWhile_cons, hs c rfl]
  | cons c n ih =>
    have hc := hn c (by simp)
    have ih' := ih fun d hd => hn d (by simp [hd])
    simp [List.takeWhile_cons, hc, ih']

lemma headBlocks_stops (rest : List Seg) (hb : headBlocks rest = true) :
    ∀ c, (renderPath rest).head? = some c → (isWordChar c = false ∧ c ≠ '*') := by
  intro c hc
  cases rest with
  | nil => simp [renderPath] at hc
  | cons sg r =>
    cases sg with
    | lit l =>
      cases l with
      | nil => simp [headBlocks] at hb
      | cons a t =>
        simp only [headBlocks, Bool.and_eq_true, Bool.not_eq_true', decide_eq_true_eq] at hb
        simp only [renderPath, List.map_cons, List.flatten_cons, renderSeg, List.cons_append,
          List.head?_cons, Option.some.injEq] at hc
        exact hc ▸ ⟨hb.1, hb.2⟩
    | scalar n =>
      simp only [renderPath, List.map_cons, List.flatten_cons, renderSeg, List.cons_append,
        List.head?_cons, Option.some.injEq] at hc
      exact hc ▸ ⟨by decide, by decide⟩
    | catchAll n =>
      simp only [renderPath, List.map_cons, List.flatten_cons, renderSeg, List.cons_append,
        List.head?_cons, Option.some.injEq] at hc
      exact hc ▸ ⟨by decide, by decide⟩

lemma scanMarkers_renderPath (segs : List Seg) (h : wfSegs segs = true) :
    scanMarkers (renderPath segs) = segMarkers segs := by
  induction segs with
  | nil => rfl
  | cons sg rest ih =>
    cases sg with
    | lit l =>
      simp only [wfSegs, Bool.and_eq_true] at h
      have hl : ∀ c ∈ l, c ≠ ':' := by
        intro c hc
        have := List.all_eq_true.mp h.1.2 c hc
        simpa using this
      simp only [renderPath, List.map_cons, List.flatten_cons, renderSeg, segMarkers]
      rw [scanMarkers_append_no_colon l _ hl]
      exact ih h.2
    | scalar n =>
      simp only [wfSegs, Bool.and_eq_true] at h
      have hok := h.1.1
      have hword : ∀ c ∈ n, isWordChar c = true := by
        intro c hc
        exact List.all_eq_true.mp ((Bool.and_eq_true _ _).mp hok).2 c hc
      have hne : n ≠ [] := by
        have := ((Bool.and_eq_true _ _).mp hok).1
        simpa [List.isEmpty_iff] using this
      have hstop := headBlocks_stops rest h.1.2
      simp only [renderPath] at hstop
      have hcont : scanMarkers (n ++ (List.map renderSeg rest).flatten) =
          scanMarkers ((List.map renderSeg rest).flatten) := by
        apply scanMarkers_append_no_colon
        intro c hc
        have := hword c hc
        intro hcol
        subst hcol
        simp [isWordChar] at this
      simp only [renderPath, List.map_cons, List.flatten_cons, renderSeg, segMarkers]
      rw [List.cons_append]
      simp only [scanMarkers, if_true]
      rw [takeWhile_append_word n ((List.map renderSeg rest).flatten) hword
        (fun c hc => (hstop c hc).1)]
      rw [if_neg hne, List.drop_left]
      split
      · next x heq =>
        exfalso
        exact (hstop '*' (by simp [heq])).2 rfl
      · next heq =>
        rw [hcont]
        exact congrArg _ (ih h.2)
    | catchAll n =>
      simp only [wfSegs, Bool.and_eq_true] at h
      have hok := h.1
      have hword : ∀ c ∈ n, isWordChar c = true := by
        intro c hc
        exact List.all_eq_true.mp ((Bool.and_eq_true _ _).mp hok).2 c hc
      have hne : n ≠ [] := by
        have := ((Bool.and_eq_true _ _).mp hok).1
        simpa [List.isEmpty_iff] using this
      have hcont : scanMarkers (n ++ '*' :: (List.map renderSeg rest).flatten) =
          scanMarkers ((List.map renderSeg rest).flatten) := by
        have hre : n ++ '*' :: (List.map renderSeg rest).flatten =
            (n ++ ['*']) ++ (List.map renderSeg rest).flatten := by
          simp
        rw [hre]
        apply scanMarkers_append_no_colon
        intro c hc
        rcases List.mem_append.mp hc with hc | hc
        · have := hword c hc
          intro hcol; subst hcol; simp [isWordChar] at this
        · simp at hc; subst hc; decide
      simp only [renderPath, List.map_cons, List.flatten_cons, renderSeg, segMarkers]
      rw [List.cons_append, List.append_assoc, List.singleton_append]
      simp only [scanMarkers, if_true]
      rw [takeWhile_append_word n ('*' :: (List.map renderSeg rest).flatten) hword
        (by intro c hc; simp at hc; subst hc; decide)]
      rw [if_neg hne, List.drop_left]
      rw [hcont]
      exact congrArg _ (ih h.2)

lemma extractParams_renderPath (segs : List Seg) (h : wfSegs segs = true) :
    extractParams (renderPath segs) = segParams segs := by
  unfold extractParams segParams
  rw [scanMarkers_renderPath segs h]

/-- Claim C5: for every canonical route path — an alternation of literal
text and normalized dynamic markers — the parameter extractor produces one
`ParamSpec` per dynamic marker, ordered by left-to-right occurrence in the
path string; a marker with a trailing `*` yields a catch-all list parameter
(`catchAll = true`, type `string[]`) with `optional = true`, and every
other marker yields a scalar parameter (`catchAll = false`, type `string`)
with `optional = false`. -/
theorem c5_extractor_correct (segs : List Seg) (h : wfSegs segs = true) :
    extractParams (renderPath segs) = segParams segs :=
  extractParams_renderPath segs h

/-- Witness for `c5_extractor_correct`, at the concrete canonical path
`/blog/:slug/sect-:rest*`. -/
theorem c5_extractor_correct_witness :
    wfSegs [Seg.lit "/blog/".data, Seg.scalar "slug".data, Seg.lit "/sect-".data,
        Seg.catchAll "rest".data] = true ∧
    extractParams (renderPath [Seg.lit "/blog/".data, Seg.scalar "slug".data,
        Seg.lit "/sect-".data, Seg.catchAll "rest".data]) =
      segParams [Seg.lit "/blog/".data, Seg.scalar "slug".data, Seg.lit "/sect-".data,
        Seg.catchAll "rest".data] :=
  ⟨by decide, c5_extractor_correct _ (by decide)⟩

/-! Route entries and the runtime behaviour of the emitted callables. -/

/-- Declared query-contract field, mirroring the element type of the
`queryParams` array of `DiscoveredRouteEntry`. -/
structure QueryParamSpec where
  name : Str
  type : Str
  optional : Bool
deriving DecidableEq, Repr

/-- Discovered route entry, mirroring `DiscoveredRouteEntry` of `core.ts`:
`queryParams` is `none` when the discovered list was empty (the source
stores `undefined` in that case). -/
structure RouteEntry where
  filePath : Str
  routePath : Str
  params : List ParamSpec
  queryParams : Option (List QueryParamSpec)
deriving DecidableEq, Repr

/-- Marker text the emitter searches for when splicing a parameter into the
path template (`generateRoutesFile` in `generator.ts`): `:name*` for a
catch-all parameter and `:name` for a scalar one. -/
def markerStr (p : ParamSpec) : Str :=
  if p.catchAll then ':' :: (p.name ++ ['*']) else ':' :: p.name

/-- Result of invoking the emitted callable of `e` with zero arguments.

The emitter builds a template literal from `e.routePath` by replacing, for
each parameter in order, the first occurrence of its marker text with a
splice; at runtime with no arguments a catch-all splice
(`params?.name ? params.name.join('/') : ''`) evaluates to the empty
string, so the result is the fold of first-occurrence replacements by the
empty string.  (The splice text contains no `:` and no `*`, so later
replacements find the same occurrences in the template as in this fold.)
A scalar splice (`params.name`) dereferences the absent record and throws,
and so does the query-string splice (`query.name ? ... : ''`) emitted
whenever a nonempty query contract is declared; both are modelled as
`none`. -/
def callZero (e : RouteEntry) : Option Str :=
  if (e.queryParams.getD []).length > 0 then none
  else if e.params.all (fun p => p.catchAll) then
    some (e.params.foldl (fun acc p => replaceFirst (markerStr p) [] acc) e.routePath)
  else none

/-- Route path with every catch-all marker substituted by the empty string
(the value the claim expects from a zero-argument invocation). -/
def renderEmptyCatchAll : List Seg → Str
  | [] => []
  | Seg.lit l :: rest => l ++ renderEmptyCatchAll rest
  | Seg.scalar n :: rest => (':' :: n) ++ renderEmptyCatchAll rest
  | Seg.catchAll _ :: rest => renderEmptyCatchAll rest

/-- Whether a segment list contains no scalar marker (so that every
extracted parameter is an optional catch-all). -/
def noScalar (segs : List Seg) : Bool :=
  segs.all fun sg => match sg with
    | Seg.scalar _ => false
    | _ => true

lemma markerStr_head (p : ParamSpec) : ∃ t, markerStr p = ':' :: t := by
  unfold markerStr
  split <;> exact ⟨_, rfl⟩

lemma replaceFirst_append_no_colon (pat r l s : Str) (hl : ∀ c ∈ l, c ≠ ':')
    (hp : ∃ t, pat = ':' :: t) :
    replaceFirst pat r (l ++ s) = l ++ replaceFirst pat r s := by
  obtain ⟨t, hpat⟩ := hp
  induction l with
  | nil => rfl
  | cons c l ih =>
    have hc : c ≠ ':' := hl c (by simp)
    rw [List.cons_append]
    have hnp : pat.isPrefixOf (c :: (l ++ s)) = false := by
      subst hpat
      simp only [List.isPrefixOf]
      rw [Bool.and_eq_false_iff]
      left
      simpa using fun h => hc h.symm
    simp only [replaceFirst, hnp, Bool.false_eq_true, if_false]
    rw [ih fun d hd => hl d (by simp [hd])]
    simp

lemma replaceFirst_at_start (pat r s : Str) (hne : pat ≠ []) :
    replaceFirst pat r (pat ++ s) = r ++ s := by
  cases hp : pat with
  | nil => exact absurd hp hne
  | cons c t =>
    subst hp
    have hpre : (c :: t).isPrefixOf (c :: (t ++ s)) = true := by
      rw [← List.cons_append]
      exact List.isPrefixOf_iff_prefix.mpr (List.prefix_append _ _)
    rw [List.cons_append]
    simp only [replaceFirst]
    rw [if_pos hpre]
    simp only [List.length_cons, List.drop_succ_cons, List.drop_left]

lemma foldl_replace_append (ps : List ParamSpec) (l s : Str) (hl : ∀ c ∈ l, c ≠ ':') :
    ps.foldl (fun acc p => replaceFirst (markerStr p) [] acc) (l ++ s) =
      l ++ ps.foldl (fun acc p => replaceFirst (markerStr p) [] acc) s := by
  induction ps generalizing s with
  | nil => rfl
  | cons p ps ih =>
    simp only [List.foldl_cons]
    rw [replaceFirst_append_no_colon (markerStr p) [] l s hl (markerStr_head p)]
    exact ih (replaceFirst (markerStr p) [] s)

lemma foldSubst_renderPath (segs : List Seg) (h : wfSegs segs = true)
    (hns : noScalar segs = true) :
    (segParams segs).foldl (fun acc p => replaceFirst (markerStr p) [] acc)
        (renderPath segs) = renderEmptyCatchAll segs := by
  induction segs with
  | nil => rfl
  | cons sg rest ih =>
    cases sg with
    | lit l =>
      simp only [wfSegs, Bool.and_eq_true] at h
      simp only [noScalar, List.all_cons, Bool.and_eq_true] at hns
      have hl : ∀ c ∈ l, c ≠ ':' := by
        intro c hc
        have := List.all_eq_true.mp h.1.2 c hc
        simpa using this
      simp only [segParams, segMarkers, renderPath, List.map_cons, List.flatten_cons,
        renderSeg, renderEmptyCatchAll]
      rw [foldl_replace_append _ l _ hl]
      have := ih h.2 hns.2
      simp only [segParams, renderPath] at this
      rw [this]
    | scalar n =>
      simp only [noScalar, List.all_cons] at hns
      simp at hns
    | catchAll n =>
      simp only [wfSegs, Bool.and_eq_true] at h
      simp only [noScalar, List.all_cons, Bool.and_eq_true] at hns
      simp only [segParams, segMarkers, renderPath, List.map_cons, List.flatten_cons,
        renderSeg, renderEmptyCatchAll, List.map_cons, List.foldl_cons]
      have hm : markerStr (paramOfMarker (n, true)) = ':' :: (n ++ ['*']) := by
        simp [markerStr, paramOfMarker]
      rw [hm]
      rw [replaceFirst_at_start (':' :: (n ++ ['*'])) [] _ (by simp)]
      have := ih h.2 hns.2
      simp only [segParams, renderPath] at this
      simpa using this

lemma segParams_all_catchAll (segs : List Seg) (hns : noScalar segs = true) :
    (segParams segs).all (fun p => p.catchAll) = true := by
  induction segs with
  | nil => rfl
  | cons sg rest ih =>
    cases sg with
    | lit l =>
      simp only [noScalar, List.all_cons, Bool.and_eq_true] at hns
      simpa [segParams, segMarkers] using ih hns.2
    | scalar n =>
      simp [noScalar] at hns
    | catchAll n =>
      simp only [noScalar, List.all_cons, Bool.and_eq_true] at hns
      simp only [segParams, segMarkers, List.map_cons, List.all_cons, Bool.and_eq_true]
      refine ⟨by simp [paramOfMarker], ?_⟩
      simpa [segParams] using ih hns.2

/-- Claim C3, amended: for every route entry whose params were extracted
from its canonical route path, all of whose params are optional (that is,
every dynamic marker of the path is a catch-all) and that declares no
query contract, the emitted callable invoked with zero arguments hits no
error branch and returns the canonical route path with each catch-all
marker substituted by the empty string.  The canonical path is presented
as a well-formed segment alternation, which rules out literal text that
contains `:` (such text can make a later first-occurrence replacement hit
a spurious occurrence assembled from adjacent text). -/
theorem c3_amended (e : RouteEntry) (segs : List Seg) (h1 : wfSegs segs = true)
    (h2 : noScalar segs = true) (hroute : e.routePath = renderPath segs)
    (hparams : e.params = extractParams e.routePath)
    (hq : e.queryParams = none) :
    callZero e = some (renderEmptyCatchAll segs) := by
  have hp : e.params = segParams segs := by
    rw [hparams, hroute, extractParams_renderPath segs h1]
  unfold callZero
  rw [hq]
  simp only [Option.getD_none, List.length_nil]
  rw [if_neg (by omega)]
  rw [hp, hroute]
  rw [if_pos (segParams_all_catchAll segs h2)]
  rw [foldSubst_renderPath segs h1 h2]

/-- Segment form of the canonical path `/docs/:slug*`. -/
def c3DocsSegs : List Seg := [Seg.lit "/docs/".data, Seg.catchAll "slug".data]

/-- Route entry discovered for `docs/[[...slug]].tsx`: canonical path
`/docs/:slug*`, a single optional catch-all param, no query contract. -/
def c3DocsEntry : RouteEntry :=
  { filePath := "pages/docs/[[...slug]].tsx".data
    routePath := renderPath c3DocsSegs
    params := extractParams (renderPath c3DocsSegs)
    queryParams := none }

/-- Witness for `c3_amended`: the callable of `/docs/:slug*` invoked with
zero arguments returns `/docs/`. -/
theorem c3_amended_witness : callZero c3DocsEntry = some "/docs/".data :=
  (c3_amended c3DocsEntry c3DocsSegs (by decide) (by decide) rfl rfl rfl).trans
    (by decide)

/-- Route entry for `/docs/:slug*` with a declared all-optional query
contract `{ q?: string }`. -/
def c3QueryEntry : RouteEntry :=
  { filePath := "pages/docs/[[...slug]].tsx".data
    routePath := "/docs/:slug*".data
    params := extractParams "/docs/:slug*".data
    queryParams := some [{ name := "q".data, type := "string".data, optional := true }] }

/-- Counterexample to claim C3 as stated: this entry's params are all
optional (a single catch-all), yet the emitted callable cannot be invoked
with zero arguments — the emitted query-string expression reads
`query.q` on the absent `query` record and throws — so the invocation
does not return the substituted canonical path. -/
theorem c3_counterexample :
    (c3QueryEntry.params.all fun p => p.optional) = true ∧
      c3QueryEntry.params ≠ [] ∧
      callZero c3QueryEntry = none := by
  refine ⟨by decide, by decide, by decide⟩

/-! Query-string construction performed at runtime by the emitted
callables (`generateRoutesFile`, query section). -/

/-- Runtime JavaScript value of a query record field. -/
inductive QVal where
  | str : Str → QVal
  | num : Int → QVal
  | bool : Bool → QVal
  | list : List Str → QVal
deriving DecidableEq, Repr

/-- JavaScript truthiness of a query field value (arrays are objects and
always truthy; the model restricts numbers to integers, so `NaN` is not
represented). -/
def truthy : QVal → Bool
  | QVal.str s => !s.isEmpty
  | QVal.num n => n ≠ 0
  | QVal.bool b => b
  | QVal.list _ => true

/-- JavaScript string coercion of a query field value, as applied by the
`+` concatenation in the emitted code (arrays coerce to their
comma-joined elements). -/
def qvalText : QVal → Str
  | QVal.str s => s
  | QVal.num n => (toString n).data
  | QVal.bool b => if b then "true".data else "false".data
  | QVal.list xs => (List.intersperse [','] xs).flatten

/-- Characters `encodeURIComponent` leaves unescaped:
letters, digits, and `- _ . ! ~ * ' ( )`. -/
def isUnreservedUri (c : Char) : Bool :=
  (('a' ≤ c && c ≤ 'z') || ('A' ≤ c && c ≤ 'Z') || ('0' ≤ c && c ≤ '9') ||
    c = '-' || c = '_' || c = '.' || c = '!' || c = '~' || c = '*' ||
    c = Char.ofNat 39 || c = '(' || c = ')')

/-- UTF-8 bytes of a code point. -/
def utf8Bytes (n : Nat) : List Nat :=
  if n < 0x80 then [n]
  else if n < 0x800 then [0xC0 + n / 0x40, 0x80 + n % 0x40]
  else if n < 0x10000 then
    [0xE0 + n / 0x1000, 0x80 + (n / 0x40) % 0x40, 0x80 + n % 0x40]
  else
    [0xF0 + n / 0x40000, 0x80 + (n / 0x1000) % 0x40, 0x80 + (n / 0x40) % 0x40,
      0x80 + n % 0x40]

/-- Uppercase hexadecimal digit. -/
def hexDigit (n : Nat) : Char :=
  if n < 10 then Char.ofNat (48 + n) else Char.ofNat (65 + n - 10)

/-- Percent-escape of one byte. -/
def pctByte (b : Nat) : Str :=
  ['%', hexDigit (b / 16), hexDigit (b % 16)]

/-- Model of the JavaScript builtin `encodeURIComponent` on strings. -/
def encodeURIComponent (s : Str) : Str :=
  (s.map fun c =>
    if isUnreservedUri c then [c] else ((utf8Bytes c.toNat).map pctByte).flatten).flatten

/-- Leading text `&name=` of an emitted query pair. -/
def ampPair (name : Str) : Str :=
  '&' :: (name ++ ['='])

/-- Whether a declared query type is list-valued: the emitter checks
`q.type.endsWith('[]')`. -/
def typeIsList (t : Str) : Bool :=
  "[]".data.isSuffixOf t

/-- Runtime value of one emitted query part, given the declared field and
the runtime value of the record field (`none` = absent / `undefined`).

List-typed field: `query.name && query.name.length > 0 ? '&name=' +
query.name.map(val => encodeURIComponent(val)).join('&name=') : ''`.
Scalar field: `query.name ? '&name=' + encodeURIComponent(query.name) :
''`.  A `none` result models a thrown `TypeError` (calling `.map` on a
truthy non-array of positive `.length`, i.e. a nonempty string, under a
list-typed contract). -/
def queryPart (q : QueryParamSpec) (v : Option QVal) : Option Str :=
  if typeIsList q.type then
    match v with
    | none => some []
    | some (QVal.list xs) =>
      if xs.length > 0 then
        some (ampPair q.name ++
          (List.intersperse (ampPair q.name) (xs.map encodeURIComponent)).flatten)
      else some []
    | some (QVal.str s) => if s.isEmpty then some [] else none
    | some (QVal.num _) => some []
    | some (QVal.bool _) => some []
  else
    match v with
    | none => some []
    | some w =>
      if truthy w then some (ampPair q.name ++ encodeURIComponent (qvalText w))
      else some []

/-- Model of `replace(/^&/, '?')`. -/
def replaceLeadingAmp : Str → Str
  | '&' :: s => '?' :: s
  | s => s

/-- Query-string group computed at runtime by the emitted callable:
per-field parts in declaration order, joined by `''`, with a leading `&`
rewritten to `?` (`generateRoutesFile`, `queryConstruction`). -/
def buildQueryString (qs : List QueryParamSpec) (lookup : Str → Option QVal) :
    Option Str :=
  (qs.mapM fun q => queryPart q (lookup q.name)).map fun parts =>
    replaceLeadingAmp parts.flatten

/-- Pairs the encoding rule of the specification expects from one field
(with presence refined to JavaScript truthiness): a list-typed field
contributes one `name=value` pair per element, a scalar field contributes
a single pair exactly when its value is truthy. -/
def fieldPairs (q : QueryParamSpec) (v : Option QVal) : List Str :=
  if typeIsList q.type then
    match v with
    | some (QVal.list xs) => xs.map fun x => q.name ++ '=' :: encodeURIComponent x
    | _ => []
  else
    match v with
    | none => []
    | some w => if truthy w then [q.name ++ '=' :: encodeURIComponent (qvalText w)] else []

/-- Expected query group, following the words of the specification: the
accumulated pairs joined with `&`, prefixed with `?` exactly when at least
one pair was produced, and empty otherwise. -/
def expectedQuery (qs : List QueryParamSpec) (lookup : Str → Option QVal) : Str :=
  match (qs.map fun q => fieldPairs q (lookup q.name)).flatten with
  | [] => []
  | pairs => '?' :: (List.intersperse ['&'] pairs).flatten

/-- Pairs rendered with a leading `&` before every pair, the shape each
emitted part takes before the final `&` to `?` rewrite. -/
def ampRender (pairs : List Str) : Str :=
  match pairs with
  | [] => []
  | ps => '&' :: (List.intersperse ['&'] ps).flatten

lemma intersperse_amp_map (name : Str) (es : List Str) (hne : es ≠ []) :
    ampPair name ++ (List.intersperse (ampPair name) es).flatten =
      '&' :: (List.intersperse ['&'] (es.map fun x => name ++ '=' :: x)).flatten := by
  induction es with
  | nil => exact absurd rfl hne
  | cons e es ih =>
    cases es with
    | nil => simp [ampPair, List.intersperse]
    | cons e2 es2 =>
      have ih2 := ih (by simp)
      simp only [List.intersperse_cons_cons, List.map_cons, List.flatten_cons]
      rw [ih2]
      simp [ampPair, List.append_assoc, List.map_cons, List.intersperse_cons_cons]

lemma intersperse_amp_append (xs ys : List Str) (hx : xs ≠ []) (hy : ys ≠ []) :
    (List.intersperse (['&'] : Str) xs).flatten ++
        '&' :: (List.intersperse ['&'] ys).flatten =
      (List.intersperse ['&'] (xs ++ ys)).flatten := by
  induction xs with
  | nil => exact absurd rfl hx
  | cons x xs ih =>
    cases xs with
    | nil =>
      cases ys with
      | nil => exact absurd rfl hy
      | cons y ys2 =>
        simp [List.intersperse_cons_cons, List.append_assoc, List.intersperse]
    | cons x2 xs2 =>
      have ih2 := ih (by simp)
      simp only [List.cons_append] at ih2
      simp only [List.cons_append, List.intersperse_cons_cons, List.flatten_cons,
        List.append_assoc]
      rw [ih2]

lemma ampRender_append (p1 p2 : List Str) :
    ampRender p1 ++ ampRender p2 = ampRender (p1 ++ p2) := by
  cases p1 with
  | nil => simp [ampRender]
  | cons x p1 =>
    cases p2 with
    | nil => simp [ampRender]
    | cons y p2 =>
      simp only [ampRender, List.cons_append]
      have h := intersperse_amp_append (x :: p1) (y :: p2) (by simp) (by simp)
      simp only [List.cons_append] at h
      rw [← h]

lemma queryPart_some (q : QueryParamSpec) (v : Option QVal)
    (h : (queryPart q v).isSome = true) :
    queryPart q v = some (ampRender (fieldPairs q v)) := by
  by_cases ht : typeIsList q.type = true
  · match v with
    | none => simp [queryPart, fieldPairs, ht, ampRender]
    | some (QVal.list []) => simp [queryPart, fieldPairs, ht, ampRender]
    | some (QVal.list (x :: xs)) =>
      simp only [queryPart, fieldPairs, ht, if_true, List.length_cons, Nat.zero_lt_succ,
        if_pos, Option.some.injEq]
      rw [intersperse_amp_map q.name (List.map encodeURIComponent (x :: xs)) (by simp)]
      simp [ampRender, List.map_map, Function.comp_def]
    | some (QVal.str s) =>
      by_cases hs : s.isEmpty = true
      · simp [queryPart, fieldPairs, ht, hs, ampRender]
      · simp [queryPart, ht, hs] at h
    | some (QVal.num n) => simp [queryPart, fieldPairs, ht, ampRender]
    | some (QVal.bool b) => simp [queryPart, fieldPairs, ht, ampRender]
  · match v with
    | none => simp [queryPart, fieldPairs, ht, ampRender]
    | some w =>
      by_cases hw : truthy w = true
      · simp [queryPart, fieldPairs, ht, hw, ampRender, ampPair, List.intersperse]
      · simp [queryPart, fieldPairs, ht, hw, ampRender]

lemma mapM_queryParts (qs : List QueryParamSpec) (lookup : Str → Option QVal)
    (h : ∀ q ∈ qs, (queryPart q (lookup q.name)).isSome = true) :
    qs.mapM (fun q => queryPart q (lookup q.name)) =
      some (qs.map fun q => ampRender (fieldPairs q (lookup q.name))) := by
  induction qs with
  | nil => rfl
  | cons q qs ih =>
    have hq := h q (by simp)
    rw [List.mapM_cons, queryPart_some q (lookup q.name) hq,
      ih fun p hp => h p (by simp [hp])]
    rfl

lemma flatten_map_ampRender (L : List (List Str)) :
    (L.map ampRender).flatten = ampRender L.flatten := by
  induction L with
  | nil => rfl
  | cons p L ih =>
    simp only [List.map_cons, List.flatten_cons, ih]
    rw [ampRender_append]

/-- Claim C1, amended: for a declared query contract and type-conforming
runtime arguments, the emitted callable builds the query group exactly as
the specification's encoding rule says, with field presence refined to
JavaScript truthiness: a list-typed field emits one percent-encoded
`name=value` pair per element, a scalar-typed field emits a single
percent-encoded pair exactly when its value is truthy (present and not
the empty string, `0`, `NaN`, or `false`), the pairs are joined with `&`
in declaration order, and the group is prefixed with `?` exactly when at
least one pair was produced, with no stray separator otherwise. -/
theorem c1_amended (qs : List QueryParamSpec) (lookup : Str → Option QVal)
    (h : ∀ q ∈ qs, (queryPart q (lookup q.name)).isSome = true) :
    buildQueryString qs lookup = some (expectedQuery qs lookup) := by
  unfold buildQueryString
  rw [mapM_queryParts qs lookup h]
  simp only [Option.map_some']
  rw [show (qs.map fun q => ampRender (fieldPairs q (lookup q.name))) =
      (qs.map fun q => fieldPairs q (lookup q.name)).map ampRender from by
    simp [List.map_map, Function.comp_def]]
  rw [flatten_map_ampRender]
  unfold expectedQuery
  cases hp : (qs.map fun q => fieldPairs q (lookup q.name)).flatten with
  | nil => simp [ampRender, replaceLeadingAmp]
  | cons p ps => simp [ampRender, replaceLeadingAmp]

/-- Declared query contract `{ q: string; page?: number }`. -/
def c1PageContract : List QueryParamSpec :=
  [{ name := "q".data, type := "string".data, optional := false },
    { name := "page".data, type := "number".data, optional := true }]

/-- Runtime argument `{ q: "react", page: 0 }`: the `page` field is
present (not `undefined`) with value `0`. -/
def c1PageArgs : Str → Option QVal := fun n =>
  if n = "q".data then some (QVal.str "react".data)
  else if n = "page".data then some (QVal.num 0) else none

/-- Counterexample to claim C1 as stated: under the contract
`{ q: string; page?: number }` with argument `{ q: "react", page: 0 }`,
the `page` field is present (non-undefined), yet the emitted callable
produces `?q=react` — the emitted guard `query.page ? ... : ''` tests
JavaScript truthiness, and `0` is falsy, so no `page=0` pair is emitted
although the claim requires one exactly when the field is present. -/
theorem c1_counterexample :
    c1PageArgs "page".data = some (QVal.num 0) ∧
      buildQueryString c1PageContract c1PageArgs = some "?q=react".data ∧
      "?q=react".data ≠ "?q=react&page=0".data := by
  refine ⟨by decide, by decide, by decide⟩

/-- Declared query contract `{ q: string; page?: number; category?: string[] }`. -/
def c1SearchContract : List QueryParamSpec :=
  [{ name := "q".data, type := "string".data, optional := false },
    { name := "page".data, type := "number".data, optional := true },
    { name := "category".data, type := "string[]".data, optional := true }]

/-- Runtime argument `{ q: "react", page: 2, category: ["tutorial", "beginner"] }`. -/
def c1SearchArgs : Str → Option QVal := fun n =>
  if n = "q".data then some (QVal.str "react".data)
  else if n = "page".data then some (QVal.num 2)
  else if n = "category".data then
    some (QVal.list ["tutorial".data, "beginner".data])
  else none

/-- Witness for `c1_amended`, at the round-trip example of the
specification: the emitted callable yields exactly
`?q=react&page=2&category=tutorial&category=beginner`, preserving
declaration order. -/
theorem c1_amended_witness :
    (∀ q ∈ c1SearchContract, (queryPart q (c1SearchArgs q.name)).isSome = true) ∧
      buildQueryString c1SearchContract c1SearchArgs =
        some "?q=react&page=2&category=tutorial&category=beginner".data :=
  ⟨by decide, (c1_amended c1SearchContract c1SearchArgs (by decide)).trans (by decide)⟩

/-! Exclusion-glob compilation and matching of the directory walker
(`getAllFilePaths` in `core.ts`). -/

/-- Token of the tiny regular-expression dialect the compiled exclusion
patterns fall into. -/
inductive RTok where
  | lit : Char → RTok
  | dot : RTok
  | starNoSlash : RTok
  | anyStar : RTok
deriving DecidableEq, Repr

/-- Compilation performed by the walker:
`new RegExp(pattern.replace(/\*\*/g, '.*').replace(/\*/g, '[^/]*'))`.
The first replacement rewrites each `**` (leftmost first) to the
two-character text `.*`; the second replacement is global over the result
of the first, so it also rewrites the `*` characters just inserted:
`**` therefore effectively compiles to `.` (any one character) followed
by `[^/]*`, and a lone `*` to `[^/]*`.  A `.` of the pattern is a regex
metacharacter and stays one; all other characters are modelled as regex
literals (the exclusion patterns of this repository contain no further
regex metacharacters). -/
def compileCodePattern : Str → List RTok
  | [] => []
  | '*' :: '*' :: rest => RTok.dot :: RTok.starNoSlash :: compileCodePattern rest
  | '*' :: rest => RTok.starNoSlash :: compileCodePattern rest
  | '.' :: rest => RTok.dot :: compileCodePattern rest
  | c :: rest => RTok.lit c :: compileCodePattern rest

/-- Modelled from the spec: a pattern is a glob-like string where `**`
matches any substring including path separators and `*` matches any
substring excluding the path separator, compiled to a substring-search
regular expression.  This is the compilation the specification describes;
it differs from `compileCodePattern` on `**`. -/
def compileSpecPattern : Str → List RTok
  | [] => []
  | '*' :: '*' :: rest => RTok.anyStar :: compileSpecPattern rest
  | '*' :: rest => RTok.starNoSlash :: compileSpecPattern rest
  | '.' :: rest => RTok.dot :: compileSpecPattern rest
  | c :: rest => RTok.lit c :: compileSpecPattern rest

/-- Whether a token list matches some prefix of `s`. -/
def tokensMatchPrefix : List RTok → Str → Bool
  | [], _ => true
  | RTok.lit _ :: _, [] => false
  | RTok.lit c :: ts, x :: s => c = x && tokensMatchPrefix ts s
  | RTok.dot :: _, [] => false
  | RTok.dot :: ts, _ :: s => tokensMatchPrefix ts s
  | RTok.starNoSlash :: ts, s =>
    (List.range (s.length + 1)).any fun k =>
      ((s.take k).all fun c => c ≠ '/') && tokensMatchPrefix ts (s.drop k)
  | RTok.anyStar :: ts, s =>
    (List.range (s.length + 1)).any fun k => tokensMatchPrefix ts (s.drop k)

/-- Unanchored `RegExp.prototype.test`: the token list matches starting at
some position of `s`. -/
def regexTest (toks : List RTok) (s : Str) : Bool :=
  (List.range (s.length + 1)).any fun i => tokensMatchPrefix toks (s.drop i)

/-- Exclusion decision of the walker: some pattern's compiled regex
matches somewhere in the candidate path (taken relative to the process
working directory). -/
def shouldExclude (pats : List Str) (relPath : Str) : Bool :=
  pats.any fun p => regexTest (compileCodePattern p) relPath

/-- Modelled from the spec: the exclusion decision the specification
describes, with `**` spanning path separators. -/
def specGlobExcludes (pats : List Str) (relPath : Str) : Bool :=
  pats.any fun p => regexTest (compileSpecPattern p) relPath

/-- Claim C2 evaluated at its failing input.  The pattern
`pages/**/secret.ts` compiles in the code to `pages/.[^/]*/secret.ts`
(the second `replace` rewrites the `*` inserted by the first), so `**`
cannot span more than one path separator: the candidate
`pages/a/b/secret.ts`, which the specification's `**` semantics excludes,
is not excluded by the walker, while the single-level candidate
`pages/a/secret.ts` still is. -/
theorem c2_code_bug_eval :
    shouldExclude ["pages/**/secret.ts".data] "pages/a/b/secret.ts".data = false ∧
      specGlobExcludes ["pages/**/secret.ts".data] "pages/a/b/secret.ts".data = true ∧
      shouldExclude ["pages/**/secret.ts".data] "pages/a/secret.ts".data = true := by
  refine ⟨by decide, by decide, by decide⟩

/-! Convention rewriter (`getRoutePathFromFilePath` in `core.ts`).  The
global regex replacements are modelled by fuel-indexed character scanners
(the fuel, initialized to the string length, dominates the number of
scanner steps, each of which consumes at least one character). -/

/-- Supported naming dialects (the `framework` selector of the source). -/
inductive Framework where
  | nextjs
  | nextjsApp
  | remix
  | astro
  | sveltekit
deriving DecidableEq, Repr

/-- Extension stripping `replace(/\.(tsx|ts|jsx|js)$/, '')`: the match is
anchored at the end, so it removes one recognized extension suffix. -/
def stripExt (s : Str) : Str :=
  if ".tsx".data.isSuffixOf s then s.take (s.length - 4)
  else if ".ts".data.isSuffixOf s then s.take (s.length - 3)
  else if ".jsx".data.isSuffixOf s then s.take (s.length - 4)
  else if ".js".data.isSuffixOf s then s.take (s.length - 3)
  else s

/-- Scanner for `replace(/\[\[\.\.\.([^[\]]+)\]\]/g, ':$1*')`: at each `[`,
try to read `[[...`, a nonempty bracket-free name, and `]]`; on success
emit `:name*` and continue after the match, otherwise copy one character
(as the regex engine advances one position after a failed attempt). -/
def replCatchAllGo : Nat → Str → Str
  | 0, _ => []
  | _ + 1, [] => []
  | fuel + 1, c :: s =>
    if c = '[' then
      match s with
      | '[' :: '.' :: '.' :: '.' :: rest =>
        let nm := rest.takeWhile fun d => d ≠ '[' && d ≠ ']'
        if nm.isEmpty then c :: replCatchAllGo fuel s
        else
          match rest.drop nm.length with
          | ']' :: ']' :: rest2 => ((':' :: nm) ++ ['*']) ++ replCatchAllGo fuel rest2
          | _ => c :: replCatchAllGo fuel s
      | _ => c :: replCatchAllGo fuel s
    else c :: replCatchAllGo fuel s

/-- The `nextjs` optional catch-all rewrite `[[...name]]` to `:name*`. -/
def replNextCatchAll (s : Str) : Str :=
  replCatchAllGo s.length s

/-- Scanner for `replace(/\[([^\]]+)\]/g, ':$1')`: at each `[`, read a
nonempty run without `]` and a closing `]`, emit `:name`. -/
def replScalarGo : Nat → Str → Str
  | 0, _ => []
  | _ + 1, [] => []
  | fuel + 1, c :: s =>
    if c = '[' then
      let nm := s.takeWhile (· ≠ ']')
      if nm.isEmpty then c :: replScalarGo fuel s
      else
        match s.drop nm.length with
        | ']' :: rest2 => (':' :: nm) ++ replScalarGo fuel rest2
        | _ => c :: replScalarGo fuel s
    else c :: replScalarGo fuel s

/-- The bracket rewrite `[name]` to `:name`. -/
def replNextScalar (s : Str) : Str :=
  replScalarGo s.length s

/-- Scanner for `replace(/\$([^.]+)/g, ':$1')` (the `remix` dialect): at
each `$`, read a nonempty dot-free run and emit `:name`. -/
def replRemixGo : Nat → Str → Str
  | 0, _ => []
  | _ + 1, [] => []
  | fuel + 1, c :: s =>
    if c = '$' then
      let nm := s.takeWhile (· ≠ '.')
      if nm.isEmpty then c :: replRemixGo fuel s
      else (':' :: nm) ++ replRemixGo fuel (s.drop nm.length)
    else c :: replRemixGo fuel s

/-- The `remix` dollar rewrite `$name` to `:name`. -/
def replRemixDollar (s : Str) : Str :=
  replRemixGo s.length s

/-- Scanner for `replace(/\[\.\.\.([^\]]+)\]/g, ':$1*')` (the `sveltekit`
and `astro` rest rewrite). -/
def replRestGo : Nat → Str → Str
  | 0, _ => []
  | _ + 1, [] => []
  | fuel + 1, c :: s =>
    if c = '[' then
      match s with
      | '.' :: '.' :: '.' :: rest =>
        let nm := rest.takeWhile (· ≠ ']')
        if nm.isEmpty then c :: replRestGo fuel s
        else
          match rest.drop nm.length with
          | ']' :: rest2 => ((':' :: nm) ++ ['*']) ++ replRestGo fuel rest2
          | _ => c :: replRestGo fuel s
      | _ => c :: replRestGo fuel s
    else c :: replRestGo fuel s

/-- The `[...name]` rest rewrite to `:name*`. -/
def replRestBracket (s : Str) : Str :=
  replRestGo s.length s

/-- Scanner for `replace(/\(([^)]+)\)/g, '')` (route-group removal of the
`nextjs-app` dialect). -/
def replGroupGo : Nat → Str → Str
  | 0, _ => []
  | _ + 1, [] => []
  | fuel + 1, c :: s =>
    if c = '(' then
      let nm := s.takeWhile (· ≠ ')')
      if nm.isEmpty then c :: replGroupGo fuel s
      else
        match s.drop nm.length with
        | ')' :: rest2 => replGroupGo fuel rest2
        | _ => c :: replGroupGo fuel s
    else c :: replGroupGo fuel s

/-- Route-group removal `(name)` to the empty string. -/
def replGroups (s : Str) : Str :=
  replGroupGo s.length s

/-- Convention-role suffix strip of the `nextjs-app` dialect:
`replace(/\/(page|layout|loading|error|not-found|template)$/, '')`
(anchored, single replacement; at most one alternative can be the suffix). -/
def stripRoleSuffix (s : Str) : Str :=
  if "/page".data.isSuffixOf s then s.take (s.length - 5)
  else if "/layout".data.isSuffixOf s then s.take (s.length - 7)
  else if "/loading".data.isSuffixOf s then s.take (s.length - 8)
  else if "/error".data.isSuffixOf s then s.take (s.length - 6)
  else if "/not-found".data.isSuffixOf s then s.take (s.length - 10)
  else if "/template".data.isSuffixOf s then s.take (s.length - 9)
  else s

/-- Dialect-specific token substitutions, in source order. -/
def applyDialect : Framework → Str → Str
  | Framework.nextjs, s => replNextScalar (replNextCatchAll s)
  | Framework.nextjsApp, s =>
    stripRoleSuffix (replNextScalar (replNextCatchAll (replGroups s)))
  | Framework.remix, s => replRemixDollar s
  | Framework.sveltekit, s => replRestBracket (replNextScalar s)
  | Framework.astro, s => replRestBracket (replNextScalar s)

/-- Collapse of an `index` basename: a whole-path `index` becomes the
root, a trailing `/index` segment is dropped (`slice(0, -6)`). -/
def collapseIndex (s : Str) : Str :=
  if s = "index".data then "/".data
  else if "/index".data.isSuffixOf s then s.take (s.length - 6)
  else s

/-- Guarantee of a single leading slash for nonempty paths. -/
def ensureLeadingSlash (s : Str) : Str :=
  if (!("/".data.isPrefixOf s)) && s ≠ [] then '/' :: s else s

/-- The empty path maps to the root. -/
def emptyToRoot (s : Str) : Str :=
  if s = [] then ['/'] else s

/-- Convention rewriter `getRoutePathFromFilePath` of `core.ts`, taking
the file path already made relative to the pages root (the source first
applies `relative(basePagesDir, filePath)`). -/
def getRoutePathFromFilePath (relPath : Str) (fw : Framework) : Str :=
  emptyToRoot (ensureLeadingSlash (collapseIndex (applyDialect fw (stripExt relPath))))

/-- Characters allowed in a plain static path segment: word characters
and hyphen. -/
def goodSegChar (c : Char) : Bool :=
  isWordChar c || c = '-'

/-- Convention-role names stripped by the `nextjs-app` dialect. -/
def roleNameStrs : List Str :=
  ["page".data, "layout".data, "loading".data, "error".data,
    "not-found".data, "template".data]

/-- Plain static path segment: nonempty, made of word characters and
hyphens, and not a name the rewriter treats specially (`index` or an
App-Router convention role). -/
def goodSeg (seg : Str) : Bool :=
  !seg.isEmpty && seg.all goodSegChar && seg ≠ "index".data &&
    !(decide (seg ∈ roleNameStrs))

/-- All segments plain. -/
def goodSegs (segs : List Str) : Bool :=
  segs.all goodSeg

/-- Canonical static path with the given segments (`[]` denotes the
root `/`). -/
def renderCanon (segs : List Str) : Str :=
  '/' :: (List.intersperse ['/'] segs).flatten

lemma mem_of_mem_intersperse {sep l : Str} {xs : List Str}
    (h : l ∈ List.intersperse sep xs) : l = sep ∨ l ∈ xs := by
  induction xs with
  | nil => simp [List.intersperse] at h
  | cons a xs ih =>
    cases xs with
    | nil =>
      simp [List.intersperse] at h
      simp [h]
    | cons b xs2 =>
      rw [List.intersperse_cons_cons] at h
      rcases List.mem_cons.mp h with h | h
      · simp [h]
      · rcases List.mem_cons.mp h with h | h
        · simp [h]
        · rcases ih h with h | h
          · simp [h]
          · simp [List.mem_cons.mpr (Or.inr h)]

lemma mem_renderCanon {segs : List Str} {c : Char} (hc : c ∈ renderCanon segs) :
    c = '/' ∨ ∃ seg ∈ segs, c ∈ seg := by
  simp only [renderCanon, List.mem_cons] at hc
  rcases hc with hc | hc
  · exact Or.inl hc
  · rcases List.mem_flatten.mp hc with ⟨l, hl, hcl⟩
    rcases mem_of_mem_intersperse hl with h | h
    · subst h
      simp at hcl
      exact Or.inl hcl
    · exact Or.inr ⟨l, h, hcl⟩

lemma renderCanon_char {segs : List Str} (hg : goodSegs segs = true) {c : Char}
    (hc : c ∈ renderCanon segs) : c = '/' ∨ goodSegChar c = true := by
  rcases mem_renderCanon hc with h | ⟨seg, hseg, hcs⟩
  · exact Or.inl h
  · right
    have := List.all_eq_true.mp hg seg hseg
    simp only [goodSeg, Bool.and_eq_true] at this
    exact List.all_eq_true.mp this.1.1.2 c hcs

lemma suffix_of_append_right {l x y : Str} (h : l <:+ x ++ y)
    (hl : l.length ≤ y.length) : l <:+ y := by
  have hy : y <:+ x ++ y := List.suffix_append x y
  rcases List.suffix_or_suffix_of_suffix h hy with h1 | h1
  · exact h1
  · have := List.IsSuffix.length_le h1
    exact List.IsSuffix.eq_of_length h1 (le_antisymm this hl) ▸ List.suffix_rfl

lemma renderCanon_cons_cons (a b : Str) (rest : List Str) :
    renderCanon (a :: b :: rest) = ('/' :: a) ++ renderCanon (b :: rest) := by
  simp [renderCanon, List.intersperse_cons_cons]

lemma renderCanon_no_slash_word_suffix (w : Str) (hwne : w ≠ [])
    (hw : ∀ c ∈ w, c ≠ '/') :
    ∀ segs : List Str, (∀ seg ∈ segs, ∀ c ∈ seg, c ≠ '/') →
      (∀ seg ∈ segs, seg ≠ w) → ¬ (('/' :: w) <:+ renderCanon segs) := by
  intro segs
  induction segs with
  | nil =>
    intro _ _ h
    have hlen := List.IsSuffix.length_le h
    have hone : (renderCanon ([] : List Str)).length = 1 := by
      simp [renderCanon, List.intersperse]
    rw [hone] at hlen
    simp only [List.length_cons] at hlen
    exact hwne (List.length_eq_zero.mp (by omega))
  | cons a rest ih =>
    intro hslash hne h
    cases rest with
    | nil =>
      have hra : renderCanon [a] = '/' :: a := by
        simp [renderCanon, List.intersperse]
      rw [hra] at h
      rcases List.suffix_cons_iff.mp h with h1 | h1
      · have hwa : w = a := by
          simpa using h1
        exact hne a (by simp) hwa.symm
      · have : '/' ∈ a := List.IsSuffix.subset h1 (by simp)
        exact hslash a (by simp) '/' this rfl
    | cons b rest2 =>
      rw [renderCanon_cons_cons] at h
      by_cases hlen : ('/' :: w).length ≤ (renderCanon (b :: rest2)).length
      · have hsr := suffix_of_append_right h hlen
        exact ih (fun seg hs => hslash seg (by simp [hs]))
          (fun seg hs => hne seg (by simp [hs])) hsr
      · have hys : renderCanon (b :: rest2) <:+ ('/' :: a) ++ renderCanon (b :: rest2) :=
          List.suffix_append _ _
        rcases List.suffix_or_suffix_of_suffix h hys with h1 | h1
        · exact hlen (List.IsSuffix.length_le h1)
        · rcases List.suffix_cons_iff.mp h1 with h2 | h2
          · have hwF : w = (List.intersperse (['/'] : Str) (b :: rest2)).flatten := by
              have := h2
              simp only [renderCanon, List.cons.injEq] at this
              exact this.2.symm
            cases rest2 with
            | nil =>
              have hwb : w = b := by
                simpa [List.intersperse] using hwF
              exact hne b (by simp) hwb.symm
            | cons c2 rest3 =>
              have : '/' ∈ w := by
                rw [hwF, List.intersperse_cons_cons]
                simp
              exact hw '/' this rfl
          · have : '/' ∈ w := List.IsSuffix.subset h2 (by simp [renderCanon])
            exact hw '/' this rfl

lemma renderCanon_no_suffixOf (w : Str) (hwne : w ≠ []) (hw : ∀ c ∈ w, c ≠ '/')
    (segs : List Str) (hg : goodSegs segs = true) (hne : ∀ seg ∈ segs, seg ≠ w) :
    ('/' :: w).isSuffixOf (renderCanon segs) = false := by
  rw [← Bool.not_eq_true]
  intro hcon
  have hsuf := List.isSuffixOf_iff_suffix.mp hcon
  refine renderCanon_no_slash_word_suffix w hwne hw segs ?_ hne hsuf
  intro seg hs c hcs
  have := List.all_eq_true.mp hg seg hs
  simp only [goodSeg, Bool.and_eq_true] at this
  have hgc := List.all_eq_true.mp this.1.1.2 c hcs
  intro hcsl
  subst hcsl
  simp [goodSegChar, isWordChar] at hgc
lemma goodSegs_ne_role (segs : List Str) (hg : goodSegs segs = true) (w : Str)
    (hwmem : w ∈ roleNameStrs) : ∀ seg ∈ segs, seg ≠ w := by
  intro seg hs heq
  have := List.all_eq_true.mp hg seg hs
  simp only [goodSeg, Bool.and_eq_true, Bool.not_eq_true', decide_eq_false_iff_not] at this
  exact this.2 (heq ▸ hwmem)

lemma goodSegs_ne_index (segs : List Str) (hg : goodSegs segs = true) :
    ∀ seg ∈ segs, seg ≠ "index".data := by
  intro seg hs
  have := List.all_eq_true.mp hg seg hs
  simp only [goodSeg, Bool.and_eq_true, decide_eq_true_eq] at this
  exact this.1.2

lemma renderCanon_char_ne {segs : List Str} (hg : goodSegs segs = true) (c0 : Char)
    (h1 : c0 ≠ '/') (h2 : goodSegChar c0 = false) :
    ∀ c ∈ renderCanon segs, c ≠ c0 := by
  intro c hc heq
  subst heq
  rcases renderCanon_char hg hc with h | h
  · exact h1 h
  · rw [h] at h2
    exact absurd h2 (by simp)

lemma not_suffixOf_of_no_dot (p s : Str) (hp : '.' ∈ p) (hs : ∀ c ∈ s, c ≠ '.') :
    p.isSuffixOf s = false := by
  rw [← Bool.not_eq_true]
  intro h
  exact hs '.' (List.IsSuffix.subset (List.isSuffixOf_iff_suffix.mp h) hp) rfl

lemma stripExt_renderCanon (segs : List Str) (hg : goodSegs segs = true) :
    stripExt (renderCanon segs) = renderCanon segs := by
  have hnd := renderCanon_char_ne hg '.' (by decide) (by decide)
  have h1 := not_suffixOf_of_no_dot ".tsx".data (renderCanon segs) (by decide) hnd
  have h2 := not_suffixOf_of_no_dot ".ts".data (renderCanon segs) (by decide) hnd
  have h3 := not_suffixOf_of_no_dot ".jsx".data (renderCanon segs) (by decide) hnd
  have h4 := not_suffixOf_of_no_dot ".js".data (renderCanon segs) (by decide) hnd
  simp [stripExt, h1, h2, h3, h4]

lemma replCatchAllGo_id (fuel : Nat) (s : Str) (hf : s.length ≤ fuel)
    (hs : ∀ c ∈ s, c ≠ '[') : replCatchAllGo fuel s = s := by
  induction fuel generalizing s with
  | zero =>
    cases s with
    | nil => rfl
    | cons c t => simp at hf
  | succ fuel ih =>
    cases s with
    | nil => rfl
    | cons c t =>
      have hc : c ≠ '[' := hs c (by simp)
      simp only [replCatchAllGo, if_neg hc]
      rw [ih t (by simp only [List.length_cons] at hf; omega)
        (fun d hd => hs d (by simp [hd]))]

lemma replScalarGo_id (fuel : Nat) (s : Str) (hf : s.length ≤ fuel)
    (hs : ∀ c ∈ s, c ≠ '[') : replScalarGo fuel s = s := by
  induction fuel generalizing s with
  | zero =>
    cases s with
    | nil => rfl
    | cons c t => simp at hf
  | succ fuel ih =>
    cases s with
    | nil => rfl
    | cons c t =>
      have hc : c ≠ '[' := hs c (by simp)
      simp only [replScalarGo, if_neg hc]
      rw [ih t (by simp only [List.length_cons] at hf; omega)
        (fun d hd => hs d (by simp [hd]))]

lemma replRemixGo_id (fuel : Nat) (s : Str) (hf : s.length ≤ fuel)
    (hs : ∀ c ∈ s, c ≠ '$') : replRemixGo fuel s = s := by
  induction fuel generalizing s with
  | zero =>
    cases s with
    | nil => rfl
    | cons c t => simp at hf
  | succ fuel ih =>
    cases s with
    | nil => rfl
    | cons c t =>
      have hc : c ≠ '$' := hs c (by simp)
      simp only [replRemixGo, if_neg hc]
      rw [ih t (by simp only [List.length_cons] at hf; omega)
        (fun d hd => hs d (by simp [hd]))]

lemma replRestGo_id (fuel : Nat) (s : Str) (hf : s.length ≤ fuel)
    (hs : ∀ c ∈ s, c ≠ '[') : replRestGo fuel s = s := by
  induction fuel generalizing s with
  | zero =>
    cases s with
    | nil => rfl
    | cons c t => simp at hf
  | succ fuel ih =>
    cases s with
    | nil => rfl
    | cons c t =>
      have hc : c ≠ '[' := hs c (by simp)
      simp only [replRestGo, if_neg hc]
      rw [ih t (by simp only [List.length_cons] at hf; omega)
        (fun d hd => hs d (by simp [hd]))]

lemma replGroupGo_id (fuel : Nat) (s : Str) (hf : s.length ≤ fuel)
    (hs : ∀ c ∈ s, c ≠ '(') : replGroupGo fuel s = s := by
  induction fuel generalizing s with
  | zero =>
    cases s with
    | nil => rfl
    | cons c t => simp at hf
  | succ fuel ih =>
    cases s with
    | nil => rfl
    | cons c t =>
      have hc : c ≠ '(' := hs c (by simp)
      simp only [replGroupGo, if_neg hc]
      rw [ih t (by simp only [List.length_cons] at hf; omega)
        (fun d hd => hs d (by simp [hd]))]

lemma stripRoleSuffix_renderCanon (segs : List Str) (hg : goodSegs segs = true) :
    stripRoleSuffix (renderCanon segs) = renderCanon segs := by
  have hp : "/page".data.isSuffixOf (renderCanon segs) = false :=
    renderCanon_no_suffixOf "page".data (by decide) (by decide) segs hg
      (goodSegs_ne_role segs hg _ (by simp [roleNameStrs]))
  have hl : "/layout".data.isSuffixOf (renderCanon segs) = false :=
    renderCanon_no_suffixOf "layout".data (by decide) (by decide) segs hg
      (goodSegs_ne_role segs hg _ (by simp [roleNameStrs]))
  have hlo : "/loading".data.isSuffixOf (renderCanon segs) = false :=
    renderCanon_no_suffixOf "loading".data (by decide) (by decide) segs hg
      (goodSegs_ne_role segs hg _ (by simp [roleNameStrs]))
  have he : "/error".data.isSuffixOf (renderCanon segs) = false :=
    renderCanon_no_suffixOf "error".data (by decide) (by decide) segs hg
      (goodSegs_ne_role segs hg _ (by simp [roleNameStrs]))
  have hn : "/not-found".data.isSuffixOf (renderCanon segs) = false :=
    renderCanon_no_suffixOf "not-found".data (by decide) (by decide) segs hg
      (goodSegs_ne_role segs hg _ (by simp [roleNameStrs]))
  have ht : "/template".data.isSuffixOf (renderCanon segs) = false :=
    renderCanon_no_suffixOf "template".data (by decide) (by decide) segs hg
      (goodSegs_ne_role segs hg _ (by simp [roleNameStrs]))
  simp [stripRoleSuffix, hp, hl, hlo, he, hn, ht]

lemma applyDialect_renderCanon (fw : Framework) (segs : List Str)
    (hg : goodSegs segs = true) :
    applyDialect fw (renderCanon segs) = renderCanon segs := by
  have hbr := renderCanon_char_ne hg '[' (by decide) (by decide)
  have hdl := renderCanon_char_ne hg '$' (by decide) (by decide)
  have hpa := renderCanon_char_ne hg '(' (by decide) (by decide)
  have hca : replNextCatchAll (renderCanon segs) = renderCanon segs :=
    replCatchAllGo_id _ _ (le_refl _) hbr
  have hsc : replNextScalar (renderCanon segs) = renderCanon segs :=
    replScalarGo_id _ _ (le_refl _) hbr
  have hrx : replRemixDollar (renderCanon segs) = renderCanon segs :=
    replRemixGo_id _ _ (le_refl _) hdl
  have hrs : replRestBracket (renderCanon segs) = renderCanon segs :=
    replRestGo_id _ _ (le_refl _) hbr
  have hgr : replGroups (renderCanon segs) = renderCanon segs :=
    replGroupGo_id _ _ (le_refl _) hpa
  cases fw with
  | nextjs => simp [applyDialect, hca, hsc]
  | nextjsApp => simp [applyDialect, hgr, hca, hsc, stripRoleSuffix_renderCanon segs hg]
  | remix => simp [applyDialect, hrx]
  | sveltekit => simp [applyDialect, hsc, hrs]
  | astro => simp [applyDialect, hsc, hrs]

lemma collapseIndex_renderCanon (segs : List Str) (hg : goodSegs segs = true) :
    collapseIndex (renderCanon segs) = renderCanon segs := by
  have h1 : renderCanon segs ≠ "index".data := by
    intro h
    have := congrArg List.head? h
    simp [renderCanon] at this
  have h2 : "/index".data.isSuffixOf (renderCanon segs) = false :=
    renderCanon_no_suffixOf "index".data (by decide) (by decide) segs hg
      (goodSegs_ne_index segs hg)
  simp [collapseIndex, h1, h2]

lemma ensureLeadingSlash_renderCanon (segs : List Str) :
    ensureLeadingSlash (renderCanon segs) = renderCanon segs := by
  simp [ensureLeadingSlash, renderCanon, List.isPrefixOf]

lemma emptyToRoot_renderCanon (segs : List Str) :
    emptyToRoot (renderCanon segs) = renderCanon segs := by
  simp [emptyToRoot, renderCanon]

/-- Claim C9, amended: for every supported dialect, the convention
rewriter is idempotent on canonical static paths whose segments are plain
(word characters and hyphens, not `index` and not an App-Router
convention-role name).  It is not idempotent on every static canonical
output — see the counterexample — so the plain-segment proviso is
required. -/
theorem c9_amended (fw : Framework) (segs : List Str) (h : goodSegs segs = true) :
    getRoutePathFromFilePath (renderCanon segs) fw = renderCanon segs := by
  unfold getRoutePathFromFilePath
  rw [stripExt_renderCanon segs h, applyDialect_renderCanon fw segs h,
    collapseIndex_renderCanon segs h, ensureLeadingSlash_renderCanon segs,
    emptyToRoot_renderCanon segs]

/-- Witness for `c9_amended`: rewriting the canonical static output
`/settings/profile` under the `nextjs-app` dialect returns it unchanged. -/
theorem c9_amended_witness :
    goodSegs ["settings".data, "profile".data] = true ∧
      getRoutePathFromFilePath (renderCanon ["settings".data, "profile".data])
        Framework.nextjsApp = renderCanon ["settings".data, "profile".data] :=
  ⟨by decide, c9_amended Framework.nextjsApp _ (by decide)⟩

/-- Counterexample to claim C9 as stated: `/index` is a canonical static
(parameter-free) output of the rewriter — it is produced from the file
path `index/index` — yet rewriting it again yields `/`, not `/index`:
the trailing `/index` collapse fires a second time. -/
theorem c9_counterexample :
    getRoutePathFromFilePath "index/index".data Framework.nextjs = "/index".data ∧
      getRoutePathFromFilePath "/index".data Framework.nextjs = "/".data ∧
      scanMarkers "/index".data = [] ∧
      "/index".data ≠ "/".data := by
  refine ⟨by decide, by decide, by decide, by decide⟩

/-! Route table builder and code emitter (`generateRoutesFile` in
`generator.ts`): dotted-name derivation, the nested `routeStructure`
object, and the rendered callable text. -/

/-- Scanner for the dotted-name rewrite
`replace(/:([a-zA-Z0-9_]+)\*?/g, '$1')`: each normalized marker is
reduced to its bare name (dropping `:` and a trailing `*`). -/
def stripMarkersGo : Nat → Str → Str
  | 0, _ => []
  | _ + 1, [] => []
  | fuel + 1, c :: s =>
    if c = ':' then
      let nm := s.takeWhile isWordChar
      if nm.isEmpty then c :: stripMarkersGo fuel s
      else
        match s.drop nm.length with
        | '*' :: rest => nm ++ stripMarkersGo fuel rest
        | _ => nm ++ stripMarkersGo fuel (s.drop nm.length)
    else c :: stripMarkersGo fuel s

/-- Dotted-name marker reduction. -/
def stripMarkers (s : Str) : Str :=
  stripMarkersGo s.length s

/-- Model of `replace(/^\//, '')`. -/
def dropLeadingSlash : Str → Str
  | '/' :: s => s
  | s => s

/-- Name a route entry contributes to the `Routes` namespace: the root
path gets the reserved name `home`, any other canonical path is stripped
of its leading slash and of its marker syntax. -/
def routeName (routePath : Str) : Str :=
  if routePath = "/".data then "home".data
  else stripMarkers (dropLeadingSlash routePath)

/-- Namespace name of an entry. -/
def entryName (e : RouteEntry) : Str :=
  routeName e.routePath

/-- Path of keys the entry occupies in the nested structure:
`routeName.split('/')`. -/
def entryParts (e : RouteEntry) : List Str :=
  (entryName e).splitOn '/'

/-- JavaScript `Array.prototype.join` on strings. -/
def strJoin (sep : Str) (xs : List Str) : Str :=
  (List.intersperse sep xs).flatten

/-- Signature text of one path parameter in the generated record type. -/
def paramSig (p : ParamSpec) : Str :=
  p.name ++ (if p.optional then "?".data else []) ++ ": ".data ++
    (if p.catchAll then "string[]".data else p.type)

/-- Signature text of one query field in the generated record type. -/
def querySig (q : QueryParamSpec) : Str :=
  q.name ++ (if q.optional then "?".data else []) ++ ": ".data ++ q.type

/-- Splice text substituted for a parameter marker in the emitted
template literal. -/
def spliceText (p : ParamSpec) : Str :=
  if p.catchAll then
    "$\x7bparams?.".data ++ p.name ++ " ? params.".data ++ p.name ++
      ".join('/') : ''\x7d".data
  else
    "$\x7bparams.".data ++ p.name ++ "\x7d".data

/-- Source text of one query part of the emitted query-string array. -/
def queryPartSrc (q : QueryParamSpec) : Str :=
  if typeIsList q.type then
    "query.".data ++ q.name ++ " && query.".data ++ q.name ++
      ".length > 0 ? '&".data ++ q.name ++ "=' + query.".data ++ q.name ++
      ".map(val => encodeURIComponent(val)).join('&".data ++ q.name ++
      "=') : ''".data
  else
    "query.".data ++ q.name ++ " ? '&".data ++ q.name ++
      "=' + encodeURIComponent(query.".data ++ q.name ++ ") : ''".data

/-- Source text of the emitted query-string construction splice. -/
def queryConstruction (qs : List QueryParamSpec) : Str :=
  "$\x7b[".data ++ strJoin ", ".data (qs.map queryPartSrc) ++
    "].join('').replace(/^&/, '?')\x7d".data

/-- Full text of the emitted callable for one route entry, following
`generateRoutesFile` exactly: argument list (a `params` record argument,
optional when every param is, then a `query` record argument, optional
when every field is), and an arrow body interpolating the path template.
The parameter loop of the source runs only under `params.length > 0`, but
a fold over an empty list is the identity, so it is applied
unconditionally here. -/
def renderCallable (e : RouteEntry) : Str :=
  let pathTemplate :=
    e.params.foldl (fun acc p => replaceFirst (markerStr p) (spliceText p) acc)
      e.routePath
  let args1 : List Str :=
    if e.params.length > 0 then
      ["params".data ++ (if e.params.all (fun p => p.optional) then "?".data else []) ++
        ": \x7b ".data ++ strJoin ", ".data (e.params.map paramSig) ++ " \x7d".data]
    else []
  let qlist := e.queryParams.getD []
  let args2 : List Str :=
    if qlist.length > 0 then
      ["query".data ++ (if qlist.all (fun q => q.optional) then "?".data else []) ++
        ": \x7b ".data ++ strJoin ", ".data (qlist.map querySig) ++ " \x7d".data]
    else []
  let template :=
    if qlist.length > 0 then pathTemplate ++ queryConstruction qlist else pathTemplate
  "(".data ++ strJoin ", ".data (args1 ++ args2) ++ ") => `".data ++ template ++ "`".data

/-- Nested `routeStructure` object: a key maps to either a rendered
callable string or a nested object. -/
inductive NS where
  | leaf : Str → NS
  | node : List (Str × NS) → NS

/-- Property read on a JavaScript object modelled as an ordered
association list. -/
def getEntry : List (Str × NS) → Str → Option NS
  | [], _ => none
  | (k, v) :: rest, key => if k = key then some v else getEntry rest key

/-- Property write: overwrite in place, or append a new key. -/
def setEntry : List (Str × NS) → Str → NS → List (Str × NS)
  | [], key, v => [(key, v)]
  | (k, w) :: rest, key, v =>
    if k = key then (k, v) :: rest else (k, w) :: setEntry rest key v

/-- Children of the object the insertion walk descends into at one key:
an absent or falsy (empty-string) value is replaced by a fresh empty
object `\x7b\x7d`, an object is kept, and a truthy string makes the walk
end in a strict-mode `TypeError` at the eventual property assignment
(`none`). -/
def descendChildren : Option NS → Option (List (Str × NS))
  | none => some []
  | some (NS.node m2) => some m2
  | some (NS.leaf s) => if s = [] then some [] else none

/-- One insertion into `routeStructure`: walk the interior key path with
`descendChildren`, and assign the callable at the final key, overwriting
whatever was there.  `none` models the thrown build. -/
def insertNS : NS → List Str → Str → Option NS
  | NS.node m, [k], v => some (NS.node (setEntry m k (NS.leaf v)))
  | NS.node m, k :: rest, v =>
    (match descendChildren (getEntry m k) with
     | none => none
     | some m2 =>
       (insertNS (NS.node m2) rest v).map fun sub => NS.node (setEntry m k sub))
  | NS.node _, [], _ => none
  | NS.leaf _, _, _ => none

/-- Callable stored at a dotted key path, when the path ends at one. -/
def lookupNS : NS → List Str → Option Str
  | NS.leaf s, [] => some s
  | NS.node _, [] => none
  | NS.leaf _, _ :: _ => none
  | NS.node m, k :: rest =>
    match getEntry m k with
    | none => none
    | some t => lookupNS t rest

/-- One builder step: insert the entry's callable at its dotted key path
(propagating a previously thrown build). -/
def insertStep (acc : Option NS) (e : RouteEntry) : Option NS :=
  acc.bind fun t => insertNS t (entryParts e) (renderCallable e)

/-- Namespace built by folding all discovered entries, in input order,
into the initially empty structure (`none` models a thrown build). -/
def buildNS (routes : List RouteEntry) : Option NS :=
  routes.foldl insertStep (some (NS.node []))

lemma getEntry_setEntry_self (m : List (Str × NS)) (k : Str) (v : NS) :
    getEntry (setEntry m k v) k = some v := by
  induction m with
  | nil => simp [setEntry, getEntry]
  | cons p m ih =>
    obtain ⟨a, b⟩ := p
    by_cases h : a = k
    · simp [setEntry, getEntry, h]
    · simp [setEntry, getEntry, h, ih]

lemma getEntry_setEntry_other (m : List (Str × NS)) (k k2 : Str) (v : NS)
    (h : k ≠ k2) : getEntry (setEntry m k v) k2 = getEntry m k2 := by
  induction m with
  | nil => simp [setEntry, getEntry, h]
  | cons p m ih =>
    obtain ⟨a, b⟩ := p
    by_cases ha : a = k
    · subst ha
      simp [setEntry, getEntry, h]
    · simp only [setEntry, if_neg ha]
      by_cases ha2 : a = k2
      · simp [getEntry, ha2]
      · simp [getEntry, ha2, ih]

lemma descendChildren_inv (o : Option NS) (m2 : List (Str × NS))
    (h : descendChildren o = some m2) :
    o = none ∧ m2 = [] ∨ o = some (NS.node m2) ∨ o = some (NS.leaf []) ∧ m2 = [] := by
  match o with
  | none =>
    simp [descendChildren] at h
    simp [h]
  | some (NS.node m3) =>
    simp [descendChildren] at h
    simp [h]
  | some (NS.leaf s) =>
    by_cases hs : s = []
    · subst hs
      simp [descendChildren] at h
      simp [h]
    · simp [descendChildren, hs] at h

lemma insertNS_cons₂ (m : List (Str × NS)) (k r2 : Str) (rs : List Str) (v : Str) :
    insertNS (NS.node m) (k :: r2 :: rs) v =
      match descendChildren (getEntry m k) with
      | none => none
      | some m2 =>
        (insertNS (NS.node m2) (r2 :: rs) v).map fun sub => NS.node (setEntry m k sub) :=
  rfl

lemma insertNS_cons₂_some (m : List (Str × NS)) (k r2 : Str) (rs : List Str)
    (v : Str) (t2 : NS) (h : insertNS (NS.node m) (k :: r2 :: rs) v = some t2) :
    ∃ m2 sub, descendChildren (getEntry m k) = some m2 ∧
      insertNS (NS.node m2) (r2 :: rs) v = some sub ∧
      t2 = NS.node (setEntry m k sub) := by
  rw [insertNS_cons₂] at h
  cases hd : descendChildren (getEntry m k) with
  | none =>
    rw [hd] at h
    exact absurd h (by simp)
  | some m2 =>
    rw [hd] at h
    have h2 : (insertNS (NS.node m2) (r2 :: rs) v).map
        (fun sub => NS.node (setEntry m k sub)) = some t2 := h
    cases hsub : insertNS (NS.node m2) (r2 :: rs) v with
    | none =>
      rw [hsub] at h2
      exact absurd h2 (by simp)
    | some sub =>
      rw [hsub] at h2
      simp only [Option.map_some', Option.some.injEq] at h2
      exact ⟨m2, sub, rfl, hsub, h2.symm⟩

lemma insertNS_lookup_self (parts : List Str) : ∀ (t t2 : NS) (v : Str),
    insertNS t parts v = some t2 → lookupNS t2 parts = some v := by
  induction parts with
  | nil =>
    intro t t2 v h
    cases t <;> simp [insertNS] at h
  | cons k rest ih =>
    intro t t2 v h
    cases rest with
    | nil =>
      cases t with
      | leaf s => simp [insertNS] at h
      | node m =>
        simp only [insertNS, Option.some.injEq] at h
        subst h
        simp [lookupNS, getEntry_setEntry_self]
    | cons r2 rs =>
      cases t with
      | leaf s => simp [insertNS] at h
      | node m =>
        obtain ⟨m2, sub, hd, hsub, ht2⟩ := insertNS_cons₂_some m k r2 rs v t2 h
        subst ht2
        rw [lookupNS]
        simp only [getEntry_setEntry_self]
        exact ih _ _ _ hsub

lemma lookupNS_preserved (pk : List Str) : ∀ (t t2 : NS) (pn : List Str) (vk w : Str),
    insertNS t pk vk = some t2 → ¬ (pk <+: pn) → w ≠ [] →
    lookupNS t pn = some w → lookupNS t2 pn = some w := by
  induction pk with
  | nil =>
    intro t t2 pn vk w h _ _ _
    cases t <;> simp [insertNS] at h
  | cons kk restk ih =>
    intro t t2 pn vk w h hpre hw hl
    cases t with
    | leaf s =>
      cases restk <;> simp [insertNS] at h
    | node m =>
      cases pn with
      | nil => simp [lookupNS] at hl
      | cons kn restn =>
        by_cases hk : kn = kk
        · subst hk
          have hpre2 : ¬ (restk <+: restn) := by
            intro hc
            exact hpre (List.cons_prefix_cons.mpr ⟨rfl, hc⟩)
          cases restk with
          | nil => exact absurd (List.cons_prefix_cons.mpr ⟨rfl, List.nil_prefix⟩) hpre
          | cons r2 rs =>
            obtain ⟨m2, sub, hd, hsub, ht2⟩ := insertNS_cons₂_some m kn r2 rs vk t2 h
            subst ht2
            rw [lookupNS] at hl
            rw [lookupNS]
            simp only [getEntry_setEntry_self]
            rcases descendChildren_inv _ _ hd with ⟨hg, hm2⟩ | hg | ⟨hg, hm2⟩
            · rw [hg] at hl
              simp at hl
            · rw [hg] at hl
              exact ih _ _ _ _ _ hsub hpre2 hw hl
            · rw [hg] at hl
              cases restn with
              | nil =>
                simp only [lookupNS, Option.some.injEq] at hl
                first
                | exact absurd hl hw
                | exact absurd hl.symm hw
              | cons x xs => simp [lookupNS] at hl
        · have hkk : kk ≠ kn := fun hc => hk hc.symm
          cases restk with
          | nil =>
            simp only [insertNS, Option.some.injEq] at h
            subst h
            rw [lookupNS] at hl
            rw [lookupNS]
            rw [getEntry_setEntry_other m kk kn _ hkk]
            exact hl
          | cons r2 rs =>
            obtain ⟨m2, sub, hd, hsub, ht2⟩ := insertNS_cons₂_some m kk r2 rs vk t2 h
            subst ht2
            rw [lookupNS] at hl
            rw [lookupNS]
            rw [getEntry_setEntry_other m kk kn _ hkk]
            exact hl
lemma renderCallable_ne_nil (e : RouteEntry) : renderCallable e ≠ [] := by
  intro h
  exact List.cons_ne_nil '(' _ h

lemma foldl_insertStep_none (S : List RouteEntry) : S.foldl insertStep none = none := by
  induction S with
  | nil => rfl
  | cons f S ih =>
    rw [List.foldl_cons]
    simpa [insertStep] using ih

lemma foldl_insertStep_preserves (S : List RouteEntry) (pn : List Str) (w : Str)
    (hw : w ≠ []) (hS : ∀ f ∈ S, ¬ (entryParts f <+: pn)) :
    ∀ (t0 t : NS), lookupNS t0 pn = some w →
      S.foldl insertStep (some t0) = some t → lookupNS t pn = some w := by
  induction S with
  | nil =>
    intro t0 t h1 h2
    simp only [List.foldl_nil] at h2
    obtain rfl := Option.some.inj h2
    exact h1
  | cons f S ih =>
    intro t0 t h1 h2
    rw [List.foldl_cons] at h2
    cases hstep : insertNS t0 (entryParts f) (renderCallable f) with
    | none =>
      rw [show insertStep (some t0) f = none from by simp [insertStep, hstep]] at h2
      rw [foldl_insertStep_none] at h2
      exact absurd h2 (by simp)
    | some t1 =>
      rw [show insertStep (some t0) f = some t1 from by simp [insertStep, hstep]] at h2
      have h1b := lookupNS_preserved (entryParts f) t0 t1 pn _ w hstep
        (hS f (by simp)) hw h1
      exact ih (fun g hg => hS g (by simp [hg])) t1 t h1b h2

/-- Claim C4, amended: for every input list of route entries in which two
distinct entries resolve to the same dotted name, provided the namespace
build completes (inserting below an existing callable throws) and no
entry after the later colliding one occupies a dotted path that is a
prefix of the colliding one (such an entry would overwrite the leaf or an
ancestor node), the namespace holds, at that dotted path, exactly the
callable of the later entry (by input order): the later entry overwrites
the earlier with no merge and no diagnostic. -/
theorem c4_amended (P S : List RouteEntry) (e e2 : RouteEntry) (t : NS)
    (hmem : e ∈ P) (hname : entryName e = entryName e2)
    (hS : ∀ f ∈ S, ¬ (entryParts f <+: entryParts e2))
    (ht : buildNS (P ++ e2 :: S) = some t) :
    lookupNS t (entryParts e2) = some (renderCallable e2) := by
  unfold buildNS at ht
  rw [show P ++ e2 :: S = (P ++ [e2]) ++ S from by simp, List.foldl_append,
    List.foldl_append] at ht
  cases hP : P.foldl insertStep (some (NS.node [])) with
  | none =>
    rw [hP] at ht
    rw [show List.foldl insertStep none [e2] = none from by simp [insertStep]] at ht
    rw [foldl_insertStep_none] at ht
    exact absurd ht (by simp)
  | some t0 =>
    rw [hP] at ht
    cases hstep : insertNS t0 (entryParts e2) (renderCallable e2) with
    | none =>
      rw [show List.foldl insertStep (some t0) [e2] = none from by
        simp [insertStep, hstep]] at ht
      rw [foldl_insertStep_none] at ht
      exact absurd ht (by simp)
    | some t1 =>
      rw [show List.foldl insertStep (some t0) [e2] = some t1 from by
        simp [insertStep, hstep]] at ht
      have hl1 := insertNS_lookup_self (entryParts e2) t0 t1 (renderCallable e2) hstep
      exact foldl_insertStep_preserves S (entryParts e2) (renderCallable e2)
        (renderCallable_ne_nil e2) hS t1 t hl1 ht

/-- Static route entry for `/a/b` discovered from `pages/a/b.tsx`. -/
def c4EntryAB : RouteEntry :=
  { filePath := "pages/a/b.tsx".data, routePath := "/a/b".data,
    params := [], queryParams := none }

/-- Distinct static route entry resolving to the same dotted name `a.b`,
discovered from `pages/a/b/index.tsx`. -/
def c4EntryAB2 : RouteEntry :=
  { filePath := "pages/a/b/index.tsx".data, routePath := "/a/b".data,
    params := [], queryParams := none }

/-- Static route entry for `/a`, dotted name `a`. -/
def c4EntryA : RouteEntry :=
  { filePath := "pages/a.tsx".data, routePath := "/a".data,
    params := [], queryParams := none }

/-- Counterexample to claim C4 as stated: the input list
`[/a/b, /a/b, /a]` contains two distinct entries with the same dotted
name `a.b`, the build completes without error, yet the namespace does not
hold the later colliding entry's callable at `a.b` — the final entry's
assignment at key `a` replaced the whole nested `a` object with its own
callable, so nothing at all is reachable at `a.b`. -/
theorem c4_counterexample :
    c4EntryAB ≠ c4EntryAB2 ∧
      entryName c4EntryAB = entryName c4EntryAB2 ∧
      (buildNS [c4EntryAB, c4EntryAB2, c4EntryA]).isSome = true ∧
      ((buildNS [c4EntryAB, c4EntryAB2, c4EntryA]).bind fun t =>
        lookupNS t (entryParts c4EntryAB2)) = none := by
  refine ⟨by decide, by decide, by decide, by decide⟩

/-- Witness for `c4_amended` at the colliding pair `[/a/b, /a/b]`. -/
theorem c4_amended_witness :
    ((buildNS [c4EntryAB, c4EntryAB2]).bind fun t =>
      lookupNS t (entryParts c4EntryAB2)) = some (renderCallable c4EntryAB2) := by
  have hsome : (buildNS [c4EntryAB, c4EntryAB2]).isSome = true := by decide
  cases hb : buildNS [c4EntryAB, c4EntryAB2] with
  | none =>
    rw [hb] at hsome
    exact absurd hsome (by simp)
  | some t =>
    rw [Option.some_bind]
    exact c4_amended [c4EntryAB] [] c4EntryAB c4EntryAB2 t (by simp)
      (by decide) (by simp) hb

/-- Root route entry (canonical path `/`, reserved name `home`). -/
def c10RootEntry : RouteEntry :=
  { filePath := "pages/index.tsx".data, routePath := "/".data,
    params := [], queryParams := none }

/-- Top-level route entry with canonical path `/home`, derived name
`home`. -/
def c10HomeEntry : RouteEntry :=
  { filePath := "pages/home.tsx".data, routePath := "/home".data,
    params := [], queryParams := none }

/-- Claim C10: the reserved root name collides with the derived name of
`/home`: both of these distinct entries get namespace key `home`, and by
last-write-wins the later-discovered entry's callable silently replaces
the root's, so the generated `Routes.home()` returns `/home`, not `/`. -/
theorem c10_root_home_collision :
    entryName c10RootEntry = "home".data ∧
      entryName c10HomeEntry = "home".data ∧
      c10RootEntry ≠ c10HomeEntry ∧
      ((buildNS [c10RootEntry, c10HomeEntry]).bind fun t =>
        lookupNS t ["home".data]) = some (renderCallable c10HomeEntry) ∧
      renderCallable c10HomeEntry = "() => `/home`".data ∧
      renderCallable c10RootEntry = "() => `/`".data ∧
      "() => `/home`".data ≠ "() => `/`".data := by
  refine ⟨by decide, by decide, by decide, by decide, by decide, by decide, by decide⟩

/-! Directory walker (`getAllFilePaths` in `core.ts`), query-contract
extractor (`extractQueryParams`), and the pipeline skeleton of
`generateRoutes` / `generateRoutesFile`. -/

/-- File-system tree: a file with its text content, a readable directory,
or a directory whose `readdirSync` throws. -/
inductive FSNode where
  | file : Str → FSNode
  | dir : List (Str × FSNode) → FSNode
  | unreadable : FSNode

/-- Model of `path.join(dirPath, name)`. -/
def joinPath (d name : Str) : Str :=
  d ++ '/' :: name

/-- Path of a child relative to the input root (`relative(basePagesDir,
filePath)`): no leading separator at the root. -/
def childRel (inp name : Str) : Str :=
  if inp = [] then name else inp ++ '/' :: name

/-- Recognized route-file extensions, `/\.(tsx|ts|jsx|js)$/.test(name)`. -/
def extOk (name : Str) : Bool :=
  ".tsx".data.isSuffixOf name || ".ts".data.isSuffixOf name ||
    ".jsx".data.isSuffixOf name || ".js".data.isSuffixOf name

/-- App-Router routable roles, `^(page|layout)\.(tsx|ts|jsx|js)$`. -/
def isAppRouterFile (name : Str) : Bool :=
  decide (name ∈ ["page.tsx".data, "page.ts".data, "page.jsx".data, "page.js".data,
    "layout.tsx".data, "layout.ts".data, "layout.jsx".data, "layout.js".data])

/-- Convention files never defining navigable paths,
`^(layout|loading|error|not-found|template|global-error)\.(tsx|ts|jsx|js)$`. -/
def isConventionFile (name : Str) : Bool :=
  decide (name ∈ ["layout.tsx".data, "layout.ts".data, "layout.jsx".data, "layout.js".data,
    "loading.tsx".data, "loading.ts".data, "loading.jsx".data, "loading.js".data,
    "error.tsx".data, "error.ts".data, "error.jsx".data, "error.js".data,
    "not-found.tsx".data, "not-found.ts".data, "not-found.jsx".data, "not-found.js".data,
    "template.tsx".data, "template.ts".data, "template.jsx".data, "template.js".data,
    "global-error.tsx".data, "global-error.ts".data, "global-error.jsx".data,
    "global-error.js".data])

/-- Recursive walk of `getAllFilePaths`: exclusion patterns are tested on
the path relative to the working directory (`dCwd` accumulates it, the
input root being taken relative to the working directory as the source
resolves `./pages`); files need a recognized extension and must pass the
unconditional role filter `isAppRouterFile || isRegularFile`; a directory
whose read throws is caught, logged, and contributes nothing.  The fuel
argument only bounds recursion depth (the JavaScript recursion is
unbounded); any fuel at least the tree height gives the walk's value. -/
def walkFiles : Nat → Str → Str → List Str → FSNode → List (Str × Str)
  | _, _, _, _, FSNode.file _ => []
  | _, _, _, _, FSNode.unreadable => []
  | 0, _, _, _, FSNode.dir _ => []
  | fuel + 1, dCwd, dInp, pats, FSNode.dir entries =>
    entries.foldr
      (fun en acc =>
        (if shouldExclude pats (joinPath dCwd en.1) then []
         else
           match en.2 with
           | FSNode.file content =>
             if extOk en.1 && (isAppRouterFile en.1 || !(isConventionFile en.1)) then
               [(childRel dInp en.1, content)]
             else []
           | child => walkFiles fuel (joinPath dCwd en.1) (childRel dInp en.1) pats child) ++
          acc)
      []

/-- JavaScript `\s` whitespace (the common cases). -/
def isSpace (c : Char) : Bool :=
  c = ' ' || c = '\n' || c = '\t' || c = '\r' || c = '\x0b' || c = '\x0c'

/-- Leading literal of the query-contract regex
`/export interface QueryParams\s*\x7b(.*?)\x7d/s`. -/
def qpKey : Str :=
  "export interface QueryParams".data

/-- Attempt of the query-contract regex at one position: the literal key,
then `\s*`, then `\x7b`, then the lazy capture up to the first `\x7d`
(which must exist). -/
def matchQPAt (s : Str) : Option Str :=
  if qpKey.isPrefixOf s then
    match (s.drop qpKey.length).dropWhile isSpace with
    | '\x7b' :: body =>
      let cap := body.takeWhile (· ≠ '\x7d')
      if body.drop cap.length = [] then none else some cap
    | _ => none
  else none

/-- Leftmost position where the query-contract regex matches. -/
def findQPGo : Nat → Str → Option Str
  | 0, _ => none
  | _ + 1, [] => none
  | fuel + 1, c :: s =>
    match matchQPAt (c :: s) with
    | some cap => some cap
    | none => findQPGo fuel s

/-- Captured body of the first query-contract block of a file. -/
def findQPBlock (s : Str) : Option Str :=
  findQPGo s.length s

/-- JavaScript `trim`. -/
def trimStr (s : Str) : Str :=
  ((s.dropWhile isSpace).reverse.dropWhile isSpace).reverse

/-- One field line against `^(\w+)\s*(\?)?:\s*([\w\[\]]+)`: name, optional
marker, and the type text (word characters and square brackets). -/
def parseProp (p : Str) : Option QueryParamSpec :=
  let name := p.takeWhile isWordChar
  if name = [] then none
  else
    let r1 := (p.drop name.length).dropWhile isSpace
    let optCut : Bool × Str :=
      match r1 with
      | '?' :: t => (true, t)
      | _ => (false, r1)
    match optCut.2 with
    | ':' :: t =>
      let ty := (t.dropWhile isSpace).takeWhile fun c =>
        isWordChar c || c = '[' || c = ']'
      if ty = [] then none
      else some { name := name, type := ty, optional := optCut.1 }
    | _ => none

/-- Query-contract extraction of `extractQueryParams` in `core.ts`: the
captured block is split on `;`, each piece trimmed, empty pieces dropped,
and unparseable pieces silently skipped. -/
def extractQueryParams (content : Str) : List QueryParamSpec :=
  match findQPBlock content with
  | none => []
  | some block =>
    ((block.splitOn ';').map trimStr).filter (fun p => p ≠ []) |>.filterMap parseProp

/-- Configuration fields the core pipeline reads (the optional extras —
tests, analytics, API helpers — are modelled as disabled). -/
structure ConfigM where
  framework : Framework
  excludePatterns : List Str
  includeQueryParams : Bool

/-- Discovery of one route entry from a walked file (`generateRoutes`):
canonical path from the rewriter, params from the extractor, query
contract from the file text when enabled, `none` when the list is empty. -/
def discoverEntry (cfg : ConfigM) (f : Str × Str) : RouteEntry :=
  let routePath := getRoutePathFromFilePath f.1 cfg.framework
  let qps := if cfg.includeQueryParams then extractQueryParams f.2 else []
  { filePath := f.1
    routePath := routePath
    params := extractParams routePath
    queryParams := if qps.length > 0 then some qps else none }

/-- Indentation text `'  '.repeat(indent)` of `generateNestedRoutes`. -/
def spacesIndent (n : Nat) : Str :=
  List.replicate (2 * n) ' '

/-- Rendering of the entries of one nested object
(`generateNestedRoutes`): a string value becomes `key: value,` and a
nested object recurses with one more indent level. -/
def renderEntries : Nat → List (Str × NS) → Str
  | _, [] => []
  | indent, (k, NS.leaf v) :: rest =>
    spacesIndent indent ++ k ++ ": ".data ++ v ++ ",\n".data ++ renderEntries indent rest
  | indent, (k, NS.node m) :: rest =>
    spacesIndent indent ++ k ++ ": \x7b\n".data ++ renderEntries (indent + 1) m ++
      spacesIndent indent ++ "\x7d,\n".data ++ renderEntries indent rest

/-- Fixed heading of the generated file. -/
def fileHeader : Str :=
  "// This file is auto-generated by your-router-gen. Do not modify.\n\n".data ++
    "/**\n * Type-safe route helpers generated from your file-based routing.\n * Use these functions for safe navigation and link creation.\n */\n".data

/-- Fixed trailing type aliases of the generated file. -/
def fileAliases : Str :=
  "/**\n * Union type of all generated route names.\n */\n".data ++
    "export type RouteNames = keyof typeof Routes;\n\n".data ++
    "/**\n * Union type of all generated route paths (the actual URL strings).\n */\n".data ++
    "export type RoutePaths = string;\n".data

/-- Full text of the generated routes file. -/
def renderRoutesFile (t : NS) : Str :=
  fileHeader ++ "export const Routes = \x7b\n".data ++
    (match t with
     | NS.leaf _ => []
     | NS.node m => renderEntries 1 m) ++
    "\x7d;\n\n".data ++ fileAliases

/-- Observable outcome of one `generateRoutes` invocation. -/
structure PipelineResult where
  written : Option Str
  envErrorLogged : Bool
  writeErrorLogged : Bool
  raised : Bool
deriving DecidableEq, Repr

/-- Model of `generateRoutesFile`: build the namespace (a collision with
an existing callable on the descent path throws out of the function), and
attempt the single `writeFileSync`; a write failure is caught and
reported, and the function returns normally. -/
def generateRoutesFileModel (routes : List RouteEntry) (writeOk : Bool) :
    PipelineResult :=
  match buildNS routes with
  | none =>
    { written := none, envErrorLogged := false, writeErrorLogged := false, raised := true }
  | some t =>
    if writeOk then
      { written := some (renderRoutesFile t), envErrorLogged := false,
        writeErrorLogged := false, raised := false }
    else
      { written := none, envErrorLogged := false, writeErrorLogged := true,
        raised := false }

/-- Model of `generateRoutes` in `core.ts`: a missing input directory is
logged and the function returns with nothing written; otherwise the tree
is walked, entries are discovered, and `generateRoutesFile` runs. -/
def generateRoutesModel (root : Option FSNode) (cfg : ConfigM) (inputCwdRel : Str)
    (fuel : Nat) (writeOk : Bool) : PipelineResult :=
  match root with
  | none =>
    { written := none, envErrorLogged := true, writeErrorLogged := false, raised := false }
  | some fs =>
    generateRoutesFileModel
      (((walkFiles fuel inputCwdRel [] cfg.excludePatterns fs).map (discoverEntry cfg)))
      writeOk

/-- Exit status of the `generate` CLI action: its `try/catch` exits `1`
only when `generateRoutes` throws. -/
def generateCommandExit (res : PipelineResult) : Nat :=
  if res.raised then 1 else 0

lemma walkFiles_unreadable_entry (fuel : Nat) (dCwd dInp : Str) (pats : List Str)
    (name : Str) (pre post : List (Str × FSNode)) :
    walkFiles fuel dCwd dInp pats (FSNode.dir (pre ++ (name, FSNode.unreadable) :: post)) =
      walkFiles fuel dCwd dInp pats (FSNode.dir (pre ++ post)) := by
  cases fuel with
  | zero => rfl
  | succ fuel =>
    simp only [walkFiles, List.foldr_append, List.foldr_cons]
    congr 1
    split
    · rfl
    · rfl

/-- Claim C6, amended: a missing input directory is logged and the run
completes without raising, but nothing at all is written (no near-empty
output file exists); an unreadable subdirectory is logged, contributes
zero routes, and the rest of the run is exactly the run on the tree with
that subdirectory absent — in particular the run still completes and
writes its output whenever the remaining tree's build does. -/
theorem c6_amended :
    (∀ (cfg : ConfigM) (rel : Str) (fuel : Nat) (writeOk : Bool),
      generateRoutesModel none cfg rel fuel writeOk =
        { written := none, envErrorLogged := true, writeErrorLogged := false,
          raised := false }) ∧
    (∀ (cfg : ConfigM) (rel : Str) (fuel : Nat) (writeOk : Bool) (name : Str)
      (pre post : List (Str × FSNode)),
      generateRoutesModel
          (some (FSNode.dir (pre ++ (name, FSNode.unreadable) :: post)))
          cfg rel fuel writeOk =
        generateRoutesModel (some (FSNode.dir (pre ++ post))) cfg rel fuel writeOk) := by
  constructor
  · intro cfg rel fuel writeOk
    rfl
  · intro cfg rel fuel writeOk name pre post
    simp only [generateRoutesModel]
    rw [walkFiles_unreadable_entry]

/-- Configuration used by the concrete error-handling evaluations. -/
def cfgPages : ConfigM :=
  { framework := Framework.nextjs, excludePatterns := [], includeQueryParams := true }

/-- Counterexample to claim C6 as stated: on a missing input directory
the run logs the environment error and completes without aborting, but
it produces no output file at all — the claimed near-empty or empty
output file exists only in the unreadable-subtree case (second conjunct:
an unreadable input root still writes an output file). -/
theorem c6_counterexample :
    generateRoutesModel none cfgPages "pages".data 9 true =
      { written := none, envErrorLogged := true, writeErrorLogged := false,
        raised := false } ∧
      (generateRoutesModel (some FSNode.unreadable) cfgPages "pages".data 9
        true).written.isSome = true := by
  exact ⟨rfl, rfl⟩

/-- Claim C7, amended: when writing the output file fails, the error is
caught inside `generateRoutesFile` and reported together with the
underlying cause; the invocation is not aborted — nothing is written, no
exception propagates, and the process exits with status `0`, not a
non-zero status. -/
theorem c7_amended (root : FSNode) (cfg : ConfigM) (rel : Str) (fuel : Nat)
    (hbuild : (buildNS ((walkFiles fuel rel [] cfg.excludePatterns root).map
      (discoverEntry cfg))).isSome = true) :
    generateRoutesModel (some root) cfg rel fuel false =
      { written := none, envErrorLogged := false, writeErrorLogged := true,
        raised := false } ∧
    generateCommandExit (generateRoutesModel (some root) cfg rel fuel false) = 0 := by
  simp only [generateRoutesModel, generateRoutesFileModel]
  cases hb : buildNS ((walkFiles fuel rel [] cfg.excludePatterns root).map
      (discoverEntry cfg)) with
  | none =>
    rw [hb] at hbuild
    exact absurd hbuild (by simp)
  | some t =>
    constructor
    · rfl
    · rfl

/-- One-file tree used by the write-failure evaluations. -/
def c7Root : FSNode :=
  FSNode.dir [("about.tsx".data, FSNode.file [])]

/-- Counterexample to claim C7 as stated: with a failing write the
invocation reports the error but exits with status `0` — the write
failure is caught by `generateRoutesFile`'s `try/catch`, so it is not
fatal and no non-zero exit occurs. -/
theorem c7_counterexample :
    generateCommandExit (generateRoutesModel (some c7Root) cfgPages "pages".data 9
        false) = 0 ∧
      (generateRoutesModel (some c7Root) cfgPages "pages".data 9
        false).writeErrorLogged = true ∧
      (generateRoutesModel (some c7Root) cfgPages "pages".data 9 false).written =
        none := by
  refine ⟨by decide, by decide, by decide⟩

/-- Witness for `c7_amended` at the one-file tree. -/
theorem c7_amended_witness :
    generateRoutesModel (some c7Root) cfgPages "pages".data 9 false =
      { written := none, envErrorLogged := false, writeErrorLogged := true,
        raised := false } ∧
    generateCommandExit (generateRoutesModel (some c7Root) cfgPages "pages".data 9
      false) = 0 :=
  c7_amended c7Root cfgPages "pages".data 9 (by decide)

/-- Claim C8, amended: the walker's filename role filter is unconditional
— the walker takes no dialect input at all.  Over a flat directory of
files, a file is yielded exactly when it survives the exclusion patterns,
has a recognized extension, and either is a `page`/`layout` role file or
is not a convention file (`layout`, `loading`, `error`, `not-found`,
`template`, `global-error`), for every dialect the pipeline might be
running under. -/
theorem c8_amended (fuel : Nat) (dCwd dInp : Str) (pats : List Str)
    (fentries : List (Str × Str)) :
    walkFiles (fuel + 1) dCwd dInp pats
        (FSNode.dir (fentries.map fun en => (en.1, FSNode.file en.2))) =
      ((fentries.filter fun en =>
          !(shouldExclude pats (joinPath dCwd en.1)) &&
            (extOk en.1 && (isAppRouterFile en.1 || !(isConventionFile en.1))))).map
        fun en => (childRel dInp en.1, en.2) := by
  induction fentries with
  | nil => rfl
  | cons en rest ih =>
    simp only [List.map_cons, walkFiles, List.foldr_cons] at ih ⊢
    rw [ih]
    by_cases hex : shouldExclude pats (joinPath dCwd en.1) = true
    · simp [hex]
    · have hex2 : shouldExclude pats (joinPath dCwd en.1) = false := by
        simpa using hex
      by_cases hkeep : (extOk en.1 && (isAppRouterFile en.1 || !(isConventionFile en.1))) = true
      · simp [hex2, hkeep]
      · have hkeep2 : (extOk en.1 && (isAppRouterFile en.1 || !(isConventionFile en.1))) = false := by
          simpa using hkeep
        simp [hex2, hkeep2]

/-- Counterexample to claim C8 as stated: `error.tsx` has a recognized
extension and survives the (empty) exclusion list, yet the walker yields
nothing — the role filter drops it although the pipeline's dialect is
`nextjs` (pages router), because the filter does not depend on the
dialect at all (the walker has no dialect parameter). -/
theorem c8_counterexample :
    walkFiles 9 "pages".data [] [] (FSNode.dir [("error.tsx".data, FSNode.file [])]) =
        [] ∧
      extOk "error.tsx".data = true ∧
      shouldExclude [] "pages/error.tsx".data = false ∧
      (walkFiles 9 "pages".data [] []
        (FSNode.dir [("contact.tsx".data, FSNode.file [])])) =
        [("contact.tsx".data, [])] := by
  refine ⟨by decide, by decide, by decide, by decide⟩

end RouterGen
